import Mathlib

/-!
Verification of the folder access-control engine of the GraphRAG repository
(`filemanager/models.py`, `filemanager/admin.py`).

The embedding models the `Folder` table as a list of rows, Django model
validation (`Folder.clean`, `Folder._validate_parent_child_access`,
`Folder._validate_existing_children`, plus the `Meta` unique constraints as
checked by `full_clean`) as `Except`-valued functions, and the admin bulk
actions `make_public` / `make_private` as folds over a depth-sorted plan.
Group membership (Django's `user.groups`) is an external boolean relation.
-/

/-- Access-control mutation of `filemanager` rejected by validation.  Each
constructor corresponds to one `ValidationError` site in the source. -/
inductive VErr where
  | invalidChoice        -- `clean_fields`: access_type not among the choices
  | cyclic               -- "Cannot create circular folder reference"
  | groupRequired        -- "Group is required when access type is 'group'"
  | groupNotAllowed      -- "Group should only be set when access type is 'group'"
  | publicUnderPrivate   -- rule 1 of `_validate_parent_child_access`
  | groupUnderPrivate    -- rule 2 of `_validate_parent_child_access`
  | groupMismatch        -- rule 3 of `_validate_parent_child_access`
  | childPublic          -- `_validate_existing_children`, public children
  | childGroup           -- `_validate_existing_children`, incompatible group children
  | childGroupMismatch   -- `_validate_existing_children`, different-group children
  | duplicate            -- `Meta` unique constraints (I6)
  deriving DecidableEq, Repr

/-- One row of the `Folder` table (`filemanager.models.Folder`); fields not
relevant to access control (`description`, `created_at`) are omitted.
`access_type` is string-keyed as in the source; `group` and `created_by`
are nullable foreign keys. -/
structure Folder where
  id : Nat
  name : String
  parent_folder : Option Nat
  created_by : Option Nat
  access_type : String
  group : Option Nat
  deriving DecidableEq, Repr

/-- The `Folder` table: a list of rows. -/
abbrev Store := List Folder

/-- Group membership: `mem u g` is Django's
`user.groups.filter(id=g).exists()` for user `u`. -/
abbrev GroupMem := Nat → Nat → Bool

/-- `Folder.objects.get(pk=i)` (first row with primary key `i`). -/
def getFolder (st : Store) (i : Nat) : Option Folder :=
  st.find? (fun f => f.id = i)

/-- Primary keys present in the table. -/
def ids (st : Store) : List Nat := st.map (fun f => f.id)

/-- The parent pointer of the row with pk `i`, if any. -/
def parentOf (st : Store) (i : Nat) : Option Nat :=
  (getFolder st i).bind (fun f => f.parent_folder)

/-- The bounded ancestor walk of `Folder.clean` (models.py lines 86-94):
starting at row `cur`, check up to `fuel` successive ancestors for one whose
pk equals `selfPk` (Django `current == self` compares pks; a fresh instance
has pk `none` and never equals a stored row).  Returns `true` when the walk
finds `selfPk`. -/
def cycleSearch (st : Store) (selfPk : Option Nat) : Nat → Nat → Bool
  | 0, _ => false
  | Nat.succ fuel, cur =>
    if selfPk = some cur then true
    else
      match parentOf st cur with
      | some p => cycleSearch st selfPk fuel p
      | none => false

/-- Iterated parent step: `stepN st k i` is the pk reached from `i` after
`k` parent hops, or `none` when the chain ends earlier. -/
def stepN (st : Store) : Nat → Nat → Option Nat
  | 0, i => some i
  | Nat.succ k, i => (parentOf st i).bind (stepN st k)

/-- The ancestor pks of row `i` (immediate parent first), truncated at
`fuel` hops; mirrors the unbounded parent walks of `get_path` and of the
admin depth computation. -/
def ancestorIds (st : Store) : Nat → Nat → List Nat
  | 0, _ => []
  | Nat.succ fuel, i =>
    match parentOf st i with
    | some p => p :: ancestorIds st fuel p
    | none => []

/-- The valid `access_type` choices (`ACCESS_TYPE_CHOICES`). -/
def accessChoices : List String := ["private", "public", "group"]

/-- The choices check of Django's `Model.clean_fields` for `access_type`
(the only field whose value validation matters to access control). -/
def clean_fields (f : Folder) : Except VErr Unit :=
  if f.access_type ∈ accessChoices then .ok () else .error .invalidChoice

/-- `parent.created_by.groups.filter(id=self.group.id).exists()` guarded by
`self.group and parent.created_by` (rule 2 condition, models.py line 122). -/
def ownerInGroup (mem : GroupMem) (owner : Option Nat) (g : Option Nat) : Bool :=
  match g, owner with
  | some gid, some uid => mem uid gid
  | _, _ => false

/-- `Folder._validate_existing_children` (models.py lines 140-185): checks the
proposed row `f` against its current children rows. -/
def validate_existing_children (mem : GroupMem) (st : Store) (f : Folder) :
    Except VErr Unit :=
  let children := st.filter (fun c => c.parent_folder = some f.id)
  if f.access_type = "private" then
    if children.any (fun c => c.access_type = "public") then
      .error .childPublic
    else
      match f.created_by with
      | some u =>
        if children.any (fun c =>
            c.access_type = "group" &&
              (match c.group with
               | some g => !(mem u g)
               | none => false)) then
          .error .childGroup
        else .ok ()
      | none => .ok ()
  else if f.access_type = "group" ∧ f.group ≠ none then
    if st.filter (fun c => c.parent_folder = some f.id) |>.any (fun c =>
        c.access_type = "group" &&
          (match c.group with
           | some g => !(some g = f.group : Bool)
           | none => false)) then
      .error .childGroupMismatch
    else .ok ()
  else .ok ()

/-- Rules 1-3 of `Folder._validate_parent_child_access` (models.py lines
110-134): the proposed row against the fetched live state of its parent. -/
def parent_rules (mem : GroupMem) (st : Store) (f : Folder) : Except VErr Unit :=
  match f.parent_folder with
  | none => .ok ()
  | some p =>
    match getFolder st p with
    | none => .ok ()
    | some parent =>
      if parent.access_type = "private" ∧ f.access_type = "public" then
        .error .publicUnderPrivate
      else if parent.access_type = "private" ∧ f.access_type = "group" ∧
          ownerInGroup mem parent.created_by f.group = false then
        .error .groupUnderPrivate
      else if parent.access_type = "group" ∧ f.access_type = "group" ∧
          parent.group ≠ f.group then
        .error .groupMismatch
      else .ok ()

/-- `Folder._validate_parent_child_access` (models.py lines 106-138): parent
compatibility rules 1-3, then (for an existing row, `isNew = false`) the
checks against current children. -/
def validate_parent_child_access (mem : GroupMem) (st : Store) (isNew : Bool)
    (f : Folder) : Except VErr Unit :=
  match parent_rules mem st f with
  | .error e => .error e
  | .ok () =>
    if isNew then .ok () else validate_existing_children mem st f

/-- The circular-reference condition of `Folder.clean`: run the bounded
walk from the proposed parent (a fresh instance has pk `none`). -/
def cycleFound (st : Store) (isNew : Bool) (f : Folder) : Bool :=
  match f.parent_folder with
  | some p => cycleSearch st (if isNew then none else some f.id) 10 p
  | none => false

/-- `Folder.clean` (models.py lines 83-104): bounded cycle walk, the two
I2 checks, then parent/child compatibility. -/
def clean (mem : GroupMem) (st : Store) (isNew : Bool) (f : Folder) :
    Except VErr Unit :=
  if cycleFound st isNew f then
    .error .cyclic
  else if f.access_type = "group" ∧ f.group = none then
    .error .groupRequired
  else if f.access_type ≠ "group" ∧ f.group ≠ none then
    .error .groupNotAllowed
  else validate_parent_child_access mem st isNew f

/-- Whether a stored sibling row clashes with the proposed row under the
`Meta` unique constraints (`unique_group_folder`, `unique_private_folder`,
`unique_public_folder`); the row with the instance's own pk is excluded for
an update (Django `validate_unique` pk exclusion).  Django's
`UniqueConstraint.validate` returns without checking when any constrained
field of the instance is NULL (NULL compares distinct in SQL, as in the
partial unique indexes), so a proposal with no parent folder is never
checked against the other roots, and the group constraint is skipped when
`group` is unset. -/
def hasDuplicate (isNew : Bool) (st : Store) (f : Folder) : Bool :=
  match f.parent_folder with
  | none => false
  | some _ =>
    st.any (fun s =>
      (isNew || !(s.id = f.id : Bool)) &&
      s.name = f.name &&
      s.parent_folder = f.parent_folder &&
      s.access_type = f.access_type &&
      (if f.access_type = "group" then
        (match f.group with
         | none => false
         | some _ => (s.group = f.group : Bool))
       else (f.access_type = "private" || f.access_type = "public")))

/-- The unique-constraint check performed by `full_clean` after `clean`. -/
def validate_unique (isNew : Bool) (st : Store) (f : Folder) : Except VErr Unit :=
  if hasDuplicate isNew st f then .error .duplicate else .ok ()

/-- Django `Model.full_clean`: field choices, `clean`, then uniqueness. -/
def full_clean (mem : GroupMem) (st : Store) (isNew : Bool) (f : Folder) :
    Except VErr Unit :=
  match clean_fields f with
  | .error e => .error e
  | .ok () =>
    match clean mem st isNew f with
    | .error e => .error e
    | .ok () => validate_unique isNew st f

/-- Persist an update: replace the row carrying `f.id`. -/
def updateStore (st : Store) (f : Folder) : Store :=
  st.map (fun o => if o.id = f.id then f else o)

/-- Validated create: `full_clean` on a fresh instance, then insert. -/
def applyCreate (mem : GroupMem) (st : Store) (f : Folder) :
    Except VErr Store :=
  (full_clean mem st true f).map (fun _ => st ++ [f])

/-- Validated update: `full_clean` on an existing instance, then save. -/
def applyUpdate (mem : GroupMem) (st : Store) (f : Folder) :
    Except VErr Store :=
  (full_clean mem st false f).map (fun _ => updateStore st f)

/-- `Folder.user_can_access` (models.py lines 205-213). -/
def user_can_access (mem : GroupMem) (f : Folder) (u : Nat) : Bool :=
  if f.access_type = "private" then f.created_by = some u
  else if f.access_type = "public" then true
  else if f.access_type = "group" then
    match f.group with
    | some g => mem u g
    | none => false
  else false

/-- `Folder.get_user_accessible_folders` (models.py lines 225-236): the
filtered queryset `Q(private, created_by=user) | Q(public) |
Q(group, group__in=user_groups)`; a NULL `group` matches no `group__in`. -/
def get_user_accessible_folders (mem : GroupMem) (st : Store) (u : Nat) :
    Store :=
  st.filter (fun f =>
    (f.access_type = "private" && f.created_by = some u) ||
    (f.access_type = "public" : Bool) ||
    (f.access_type = "group" &&
      (match f.group with
       | some g => mem u g
       | none => false)))

/-- Tree depth of the row with pk `i` (number of parent hops), as computed by
the admin actions' `while current:` walk; `fuel` bounds the walk (the source
walk is unbounded and terminates exactly on acyclic data). -/
def depthOfId (st : Store) (fuel : Nat) (i : Nat) : Nat :=
  (ancestorIds st fuel i).length

/-- Stable ascending insertion by first component (Python `list.sort` with
`key=lambda x: x[0]` keeps the original order of equal keys). -/
def insertAsc (x : Nat × Nat) : List (Nat × Nat) → List (Nat × Nat)
  | [] => [x]
  | y :: ys => if y.1 < x.1 then y :: insertAsc x ys else x :: y :: ys

/-- Stable ascending sort by first component. -/
def sortAscStable : List (Nat × Nat) → List (Nat × Nat)
  | [] => []
  | x :: xs => insertAsc x (sortAscStable xs)

/-- Stable descending insertion by first component (Python `sort` with
`reverse=True` keeps the original order of equal keys). -/
def insertDesc (x : Nat × Nat) : List (Nat × Nat) → List (Nat × Nat)
  | [] => [x]
  | y :: ys => if x.1 < y.1 then y :: insertDesc x ys else x :: y :: ys

/-- Stable descending sort by first component. -/
def sortDescStable : List (Nat × Nat) → List (Nat × Nat)
  | [] => []
  | x :: xs => insertDesc x (sortDescStable xs)

/-- The target state assignment of the bulk actions:
`folder.access_type = target; folder.group = None`. -/
def setMode (f : Folder) (target : String) : Folder :=
  { f with access_type := target, group := none }

/-- Accumulated result of a bulk reclassification
(`count`, `errors` of admin.py `make_public` / `make_private`). -/
structure BatchResult where
  store : Store
  count : Nat
  errors : List (String × VErr)
  deriving DecidableEq, Repr

/-- One loop iteration of the bulk actions (admin.py lines 253-262 and
292-301): skip folders already in the target mode; otherwise assign the
target mode, `full_clean`, and either save and count or record the error
and continue. -/
def reclassStep (mem : GroupMem) (target : String) (r : BatchResult)
    (i : Nat) : BatchResult :=
  match getFolder r.store i with
  | none => r
  | some fOld =>
    if fOld.access_type = target then r
    else
      match full_clean mem r.store false (setMode fOld target) with
      | .ok () =>
        { store := updateStore r.store (setMode fOld target),
          count := r.count + 1, errors := r.errors }
      | .error e =>
        { store := r.store, count := r.count,
          errors := r.errors ++ [(fOld.name, e)] }

/-- The processing order of `make_public`: batch annotated with depths,
stably sorted ascending (parents first). -/
def planPublic (st : Store) (batch : List Nat) : List Nat :=
  (sortAscStable (batch.map (fun i => (depthOfId st st.length i, i)))).map
    (fun x => x.2)

/-- The processing order of `make_private`: batch annotated with depths,
stably sorted descending (children first). -/
def planPrivate (st : Store) (batch : List Nat) : List Nat :=
  (sortDescStable (batch.map (fun i => (depthOfId st st.length i, i)))).map
    (fun x => x.2)

/-- `FolderAdmin.make_public` (admin.py lines 235-270). -/
def make_public (mem : GroupMem) (st : Store) (batch : List Nat) :
    BatchResult :=
  (planPublic st batch).foldl (reclassStep mem "public")
    { store := st, count := 0, errors := [] }

/-- `FolderAdmin.make_private` (admin.py lines 274-309). -/
def make_private (mem : GroupMem) (st : Store) (batch : List Nat) :
    BatchResult :=
  (planPrivate st batch).foldl (reclassStep mem "private")
    { store := st, count := 0, errors := [] }

/-- The error display of the bulk actions: the first three `(name, error)`
entries are shown, and when more than three failures occurred the count of
the remaining ones is appended (`errors[:3]`, `len(errors) - 3`). -/
def errorReport (errors : List (String × VErr)) :
    List (String × VErr) × Option Nat :=
  (errors.take 3, if 3 < errors.length then some (errors.length - 3) else none)

/-- Tree states reachable from the empty table through validated mutations:
creates auto-populate `created_by` from the requesting user and receive a
fresh pk; updates keep pk and `created_by`; parent pointers are foreign keys
into the table; every mutation passes `full_clean`. -/
inductive Reachable (mem : GroupMem) : Store → Prop
  | nil : Reachable mem []
  | create (st : Store) (f : Folder) (u : Nat) :
      Reachable mem st →
      f.id ∉ ids st →
      f.created_by = some u →
      (∀ p, f.parent_folder = some p → p ∈ ids st) →
      full_clean mem st true f = .ok () →
      Reachable mem (st ++ [f])
  | update (st : Store) (f : Folder) (old : Folder) :
      Reachable mem st →
      old ∈ st →
      old.id = f.id →
      old.created_by = f.created_by →
      (∀ p, f.parent_folder = some p → p ∈ ids st) →
      full_clean mem st false f = .ok () →
      Reachable mem (updateStore st f)

/-! ### Basic lemmas about the row store -/

lemma mem_ids_of_mem {st : Store} {f : Folder} (h : f ∈ st) : f.id ∈ ids st :=
  List.mem_map_of_mem (fun g => g.id) h

lemma getFolder_mem {st : Store} {i : Nat} {f : Folder}
    (h : getFolder st i = some f) : f ∈ st ∧ f.id = i := by
  unfold getFolder at h
  refine ⟨List.mem_of_find?_eq_some h, ?_⟩
  have := List.find?_some h
  simpa using this

lemma getFolder_of_mem_ids {st : Store} {i : Nat} (h : i ∈ ids st) :
    ∃ o, getFolder st i = some o ∧ o ∈ st ∧ o.id = i := by
  have hsome : (st.find? (fun f => f.id = i)).isSome := by
    rw [List.find?_isSome]
    rcases List.mem_map.mp h with ⟨o, ho, hid⟩
    exact ⟨o, ho, by simp [hid]⟩
  rcases Option.isSome_iff_exists.mp hsome with ⟨o, ho⟩
  have ho' : getFolder st i = some o := ho
  exact ⟨o, ho', (getFolder_mem ho').1, (getFolder_mem ho').2⟩

lemma getFolder_eq_none {st : Store} {i : Nat} (h : i ∉ ids st) :
    getFolder st i = none := by
  unfold getFolder
  rw [List.find?_eq_none]
  intro f hf
  simp only [decide_eq_true_eq]
  intro hid
  exact h (hid ▸ mem_ids_of_mem hf)

lemma getFolder_eq_some_of_mem {st : Store} {f : Folder}
    (hnd : (ids st).Nodup) (h : f ∈ st) : getFolder st f.id = some f := by
  induction st with
  | nil => cases h
  | cons x xs ih =>
    have hnd2 : x.id ∉ ids xs ∧ (ids xs).Nodup := by
      have : (x.id :: ids xs).Nodup := by simpa [ids] using hnd
      exact List.nodup_cons.mp this
    rcases List.mem_cons.mp h with rfl | hxs
    · simp [getFolder]
    · have hx : x.id ≠ f.id := by
        intro he
        exact hnd2.1 (he ▸ mem_ids_of_mem hxs)
      have hrec := ih hnd2.2 hxs
      unfold getFolder at hrec ⊢
      rw [List.find?_cons_of_neg _ (by simp [hx])]
      exact hrec

lemma ids_append (st : Store) (f : Folder) : ids (st ++ [f]) = ids st ++ [f.id] := by
  simp [ids]

lemma getFolder_append_of_mem {st : Store} {i : Nat} {o : Folder} (g : Folder)
    (h : getFolder st i = some o) : getFolder (st ++ [g]) i = some o := by
  unfold getFolder at h ⊢
  induction st with
  | nil => simp at h
  | cons x xs ih =>
    by_cases hx : x.id = i
    · simp only [List.cons_append, List.find?]
      rw [List.find?_cons_of_pos _ (by simp [hx])] at h
      simpa [hx] using h
    · rw [List.find?_cons_of_neg _ (by simp [hx])] at h
      simp only [List.cons_append]
      rw [List.find?_cons_of_neg _ (by simp [hx])]
      exact ih h

lemma getFolder_append_fresh {st : Store} {f : Folder}
    (h : f.id ∉ ids st) : getFolder (st ++ [f]) f.id = some f := by
  unfold getFolder
  induction st with
  | nil => simp
  | cons x xs ih =>
    have hx : x.id ≠ f.id := by
      intro he
      exact h (by simp [ids, he])
    simp only [List.cons_append]
    rw [List.find?_cons_of_neg _ (by simp [hx])]
    exact ih (fun hm => h (by simp [ids] at hm ⊢; exact Or.inr hm))

lemma parentOf_append_of_mem {st : Store} {i : Nat} (g : Folder)
    (h : i ∈ ids st) : parentOf (st ++ [g]) i = parentOf st i := by
  rcases getFolder_of_mem_ids h with ⟨o, ho, _, _⟩
  unfold parentOf
  rw [ho, getFolder_append_of_mem g ho]

lemma ids_updateStore (st : Store) (f : Folder) :
    ids (updateStore st f) = ids st := by
  unfold ids updateStore
  rw [List.map_map]
  apply List.map_congr_left
  intro o _
  by_cases h : o.id = f.id <;> simp [h]

lemma getFolder_updateStore_ne {st : Store} {f : Folder} {i : Nat}
    (h : i ≠ f.id) : getFolder (updateStore st f) i = getFolder st i := by
  unfold getFolder updateStore
  induction st with
  | nil => simp
  | cons x xs ih =>
    by_cases hx : x.id = f.id
    · have hxi : x.id ≠ i := by rw [hx]; exact fun he => h he.symm
      simp only [List.map_cons, hx, if_pos rfl]
      rw [List.find?_cons_of_neg _ (by simp; exact fun he => h he.symm),
        List.find?_cons_of_neg _ (by simp [hxi])]
      exact ih
    · simp only [List.map_cons, if_neg hx]
      by_cases hxi : x.id = i
      · rw [List.find?_cons_of_pos _ (by simp [hxi]),
          List.find?_cons_of_pos _ (by simp [hxi])]
      · rw [List.find?_cons_of_neg _ (by simp [hxi]),
          List.find?_cons_of_neg _ (by simp [hxi])]
        exact ih

lemma getFolder_updateStore_self {st : Store} {f : Folder}
    (h : f.id ∈ ids st) : getFolder (updateStore st f) f.id = some f := by
  unfold getFolder updateStore
  induction st with
  | nil => simp [ids] at h
  | cons x xs ih =>
    by_cases hx : x.id = f.id
    · simp only [List.map_cons, hx, if_pos rfl]
      rw [List.find?_cons_of_pos _ (by simp)]
      simp
    · simp only [List.map_cons, if_neg hx]
      rw [List.find?_cons_of_neg _ (by simp [hx])]
      refine ih ?_
      simp only [ids, List.map_cons] at h
      rcases List.mem_cons.mp h with h | h
      · exact absurd h.symm hx
      · exact h

lemma parentOf_updateStore_ne {st : Store} {f : Folder} {i : Nat}
    (h : i ≠ f.id) : parentOf (updateStore st f) i = parentOf st i := by
  unfold parentOf
  rw [getFolder_updateStore_ne h]

lemma parentOf_updateStore_self {st : Store} {f : Folder}
    (h : f.id ∈ ids st) : parentOf (updateStore st f) f.id = f.parent_folder := by
  unfold parentOf
  rw [getFolder_updateStore_self h]
  rfl

lemma mem_updateStore {st : Store} {f x : Folder}
    (h : x ∈ updateStore st f) : x = f ∨ (x ∈ st ∧ x.id ≠ f.id) := by
  unfold updateStore at h
  rcases List.mem_map.mp h with ⟨o, ho, hox⟩
  by_cases hid : o.id = f.id
  · left; simp [hid] at hox; exact hox.symm
  · right
    simp [hid] at hox
    exact ⟨hox ▸ ho, hox ▸ hid⟩

lemma mem_updateStore_of_mem {st : Store} {f o : Folder}
    (ho : o ∈ st) (h : o.id ≠ f.id) : o ∈ updateStore st f := by
  unfold updateStore
  exact List.mem_map.mpr ⟨o, ho, by simp [h]⟩

lemma self_mem_updateStore {st : Store} {f old : Folder}
    (ho : old ∈ st) (h : old.id = f.id) : f ∈ updateStore st f := by
  unfold updateStore
  exact List.mem_map.mpr ⟨old, ho, by simp [h]⟩

/-! ### The bounded cycle walk and the parent-step iteration -/

lemma cycleSearch_none (st : Store) : ∀ n i, cycleSearch st none n i = false := by
  intro n
  induction n with
  | zero => intro i; rfl
  | succ n ih =>
    intro i
    unfold cycleSearch
    simp only [reduceCtorEq, if_false]
    cases parentOf st i with
    | none => rfl
    | some p => exact ih p

lemma stepN_zero (st : Store) (i : Nat) : stepN st 0 i = some i := rfl

lemma stepN_succ (st : Store) (k i : Nat) :
    stepN st (k + 1) i = (parentOf st i).bind (stepN st k) := rfl

lemma cycleSearch_eq_true_iff (st : Store) (a : Nat) :
    ∀ n start, cycleSearch st (some a) n start = true ↔
      ∃ k, k < n ∧ stepN st k start = some a := by
  intro n
  induction n with
  | zero =>
    intro start
    constructor
    · intro h; exact absurd h (by simp [cycleSearch])
    · rintro ⟨k, hk, _⟩; exact absurd hk (Nat.not_lt_zero k)
  | succ n ih =>
    intro start
    by_cases ha : a = start
    · constructor
      · intro _
        exact ⟨0, Nat.succ_pos n, by simp [stepN_zero, ha]⟩
      · intro _
        unfold cycleSearch
        rw [if_pos (by rw [ha])]
    · have hne : ¬ ((some a : Option Nat) = some start) := by simpa using ha
      unfold cycleSearch
      rw [if_neg hne]
      cases hp : parentOf st start with
      | none =>
        constructor
        · intro h; cases h
        · rintro ⟨k, hk, hs⟩
          cases k with
          | zero =>
            rw [stepN_zero] at hs
            exact absurd (Option.some_inj.mp hs).symm ha
          | succ k =>
            rw [stepN_succ, hp] at hs
            cases hs
      | some p =>
        rw [ih p]
        constructor
        · rintro ⟨k, hk, hs⟩
          refine ⟨k + 1, Nat.succ_lt_succ hk, ?_⟩
          rw [stepN_succ, hp]
          exact hs
        · rintro ⟨k, hk, hs⟩
          cases k with
          | zero =>
            rw [stepN_zero] at hs
            exact absurd (Option.some_inj.mp hs).symm ha
          | succ k =>
            rw [stepN_succ, hp] at hs
            exact ⟨k, Nat.lt_of_succ_lt_succ hk, hs⟩

lemma stepN_add (st : Store) (m : Nat) :
    ∀ k i, stepN st (m + k) i = (stepN st k i).bind (stepN st m) := by
  intro k
  induction k with
  | zero =>
    intro i
    rw [Nat.add_zero, stepN_zero]
    rfl
  | succ k ih =>
    intro i
    have he : m + (k + 1) = (m + k) + 1 := rfl
    rw [he, stepN_succ, stepN_succ]
    cases parentOf st i with
    | none => rfl
    | some p =>
      show stepN st (m + k) p = (stepN st k p).bind (stepN st m)
      exact ih p

lemma stepN_congr {st1 st2 : Store} {a : Nat}
    (hagree : ∀ x, x ≠ a → parentOf st1 x = parentOf st2 x) :
    ∀ k i, (∀ m, m < k → stepN st1 m i ≠ some a) →
      stepN st1 k i = stepN st2 k i := by
  intro k
  induction k with
  | zero => intro i _; rfl
  | succ k ih =>
    intro i havoid
    have hia : i ≠ a := by
      intro he
      exact havoid 0 (Nat.succ_pos k) (by rw [stepN_zero, he])
    rw [stepN_succ, stepN_succ, hagree i hia]
    cases hp : parentOf st2 i with
    | none => rfl
    | some p =>
      show stepN st1 k p = stepN st2 k p
      refine ih p ?_
      intro m hm hcontra
      refine havoid (m + 1) (Nat.succ_lt_succ hm) ?_
      have hp1 : parentOf st1 i = some p := by rw [hagree i hia]; exact hp
      rw [stepN_succ, hp1]
      exact hcontra

/-! ### Characterizations of the validators -/

lemma clean_fields_ok_iff (f : Folder) :
    clean_fields f = .ok () ↔ f.access_type ∈ accessChoices := by
  unfold clean_fields
  by_cases h : f.access_type ∈ accessChoices <;> simp [h]

lemma validate_unique_ok_iff (isNew : Bool) (st : Store) (f : Folder) :
    validate_unique isNew st f = .ok () ↔ hasDuplicate isNew st f = false := by
  unfold validate_unique
  by_cases h : hasDuplicate isNew st f <;> simp [h]

lemma full_clean_ok_iff (mem : GroupMem) (st : Store) (isNew : Bool) (f : Folder) :
    full_clean mem st isNew f = .ok () ↔
      clean_fields f = .ok () ∧ clean mem st isNew f = .ok () ∧
        validate_unique isNew st f = .ok () := by
  unfold full_clean
  cases h1 : clean_fields f with
  | error e => simp [h1]
  | ok u =>
    cases u
    cases h2 : clean mem st isNew f with
    | error e => simp [h2]
    | ok v => cases v; simp

lemma clean_ok_iff (mem : GroupMem) (st : Store) (isNew : Bool) (f : Folder) :
    clean mem st isNew f = .ok () ↔
      cycleFound st isNew f = false ∧
      ¬(f.access_type = "group" ∧ f.group = none) ∧
      ¬(f.access_type ≠ "group" ∧ f.group ≠ none) ∧
      validate_parent_child_access mem st isNew f = .ok () := by
  unfold clean
  by_cases h1 : cycleFound st isNew f = true
  · simp [h1]
  · by_cases h2 : f.access_type = "group" ∧ f.group = none
    · simp [h1, h2]
    · by_cases h3 : f.access_type ≠ "group" ∧ f.group ≠ none
      · simp [h1, h2, h3]
      · simp [h1, h2, h3]

lemma parent_rules_ok_iff (mem : GroupMem) (st : Store) (f : Folder) :
    parent_rules mem st f = .ok () ↔
      ∀ p parent, f.parent_folder = some p → getFolder st p = some parent →
        ¬(parent.access_type = "private" ∧ f.access_type = "public") ∧
        (parent.access_type = "private" → f.access_type = "group" →
          ownerInGroup mem parent.created_by f.group = true) ∧
        (parent.access_type = "group" → f.access_type = "group" →
          parent.group = f.group) := by
  unfold parent_rules
  cases hpf : f.parent_folder with
  | none =>
    constructor
    · intro _ p parent hq _
      cases hq
    · intro _
      rfl
  | some p =>
    simp only []
    cases hg : getFolder st p with
    | none =>
      constructor
      · intro _ q parent hq hgq
        cases hq
        rw [hg] at hgq
        cases hgq
      · intro _
        rfl
    | some parent =>
      simp only []
      by_cases c1 : parent.access_type = "private" ∧ f.access_type = "public"
      · rw [if_pos c1]
        constructor
        · intro h
          cases h
        · intro hall
          exact absurd c1 (hall p parent rfl hg).1
      · rw [if_neg c1]
        by_cases c2 : parent.access_type = "private" ∧ f.access_type = "group" ∧
            ownerInGroup mem parent.created_by f.group = false
        · rw [if_pos c2]
          constructor
          · intro h
            cases h
          · intro hall
            have h2 := (hall p parent rfl hg).2.1 c2.1 c2.2.1
            rw [c2.2.2] at h2
            cases h2
        · rw [if_neg c2]
          by_cases c3 : parent.access_type = "group" ∧ f.access_type = "group" ∧
              parent.group ≠ f.group
          · rw [if_pos c3]
            constructor
            · intro h
              cases h
            · intro hall
              exact absurd ((hall p parent rfl hg).2.2 c3.1 c3.2.1) c3.2.2
          · rw [if_neg c3]
            constructor
            · intro _ q parentq hq hgq
              cases hq
              rw [hg] at hgq
              cases hgq
              refine ⟨c1, ?_, ?_⟩
              · intro hp hf
                by_cases ho : ownerInGroup mem parent.created_by f.group = true
                · exact ho
                · exact absurd ⟨hp, hf, by simpa using ho⟩ c2
              · intro hp hf
                by_cases hgr : parent.group = f.group
                · exact hgr
                · exact absurd ⟨hp, hf, hgr⟩ c3
            · intro _
              rfl

lemma vpca_ok_iff (mem : GroupMem) (st : Store) (isNew : Bool) (f : Folder) :
    validate_parent_child_access mem st isNew f = .ok () ↔
      parent_rules mem st f = .ok () ∧
      (isNew = false → validate_existing_children mem st f = .ok ()) := by
  unfold validate_parent_child_access
  cases hpr : parent_rules mem st f with
  | error e =>
    constructor
    · intro h
      cases h
    · rintro ⟨h, -⟩
      cases h
  | ok u =>
    cases u
    cases isNew with
    | true => simp
    | false => simp

lemma vec_ok_no_public_child {mem : GroupMem} {st : Store} {f : Folder}
    (h : validate_existing_children mem st f = .ok ())
    (hpriv : f.access_type = "private") :
    ∀ c ∈ st, c.parent_folder = some f.id → c.access_type ≠ "public" := by
  intro c hc hcp hcpub
  unfold validate_existing_children at h
  rw [if_pos hpriv] at h
  have hany : (st.filter (fun c => c.parent_folder = some f.id)).any
      (fun c => c.access_type = "public") = true := by
    rw [List.any_eq_true]
    exact ⟨c, List.mem_filter.mpr ⟨hc, by simp [hcp]⟩, by simp [hcpub]⟩
  rw [if_pos hany] at h
  cases h

lemma vec_ok_group_children {mem : GroupMem} {st : Store} {f : Folder}
    (h : validate_existing_children mem st f = .ok ())
    (hpriv : f.access_type = "private") {u : Nat}
    (hcb : f.created_by = some u) :
    ∀ c ∈ st, c.parent_folder = some f.id → c.access_type = "group" →
      ∀ g, c.group = some g → mem u g = true := by
  intro c hc hcp hcg g hg
  unfold validate_existing_children at h
  rw [if_pos hpriv] at h
  by_cases hmem : mem u g = true
  · exact hmem
  · exfalso
    have hany : (st.filter (fun c => c.parent_folder = some f.id)).any
        (fun c => c.access_type = "group" &&
          (match c.group with
           | some g => !(mem u g)
           | none => false)) = true := by
      rw [List.any_eq_true]
      refine ⟨c, List.mem_filter.mpr ⟨hc, by simp [hcp]⟩, ?_⟩
      rw [hg]
      simp [hcg, hmem]
    rcases hfirst : (st.filter (fun c => c.parent_folder = some f.id)).any
        (fun c => c.access_type = "public") with _ | _
    · rw [if_neg (by rw [hfirst]; exact Bool.false_ne_true)] at h
      rw [hcb] at h
      simp only [] at h
      rw [if_pos hany] at h
      cases h
    · rw [if_pos hfirst] at h
      cases h

lemma vec_ok_group_mismatch {mem : GroupMem} {st : Store} {f : Folder}
    (h : validate_existing_children mem st f = .ok ())
    (hgrp : f.access_type = "group") (hgne : f.group ≠ none) :
    ∀ c ∈ st, c.parent_folder = some f.id → c.access_type = "group" →
      ∀ g, c.group = some g → some g = f.group := by
  intro c hc hcp hcg g hg
  unfold validate_existing_children at h
  have hpriv : ¬ f.access_type = "private" := by
    rw [hgrp]; decide
  rw [if_neg hpriv, if_pos ⟨hgrp, hgne⟩] at h
  by_cases hsame : (some g = f.group : Prop)
  · exact hsame
  · exfalso
    have hany : (st.filter (fun c => c.parent_folder = some f.id)).any
        (fun c => c.access_type = "group" &&
          (match c.group with
           | some g => !(some g = f.group : Bool)
           | none => false)) = true := by
      rw [List.any_eq_true]
      refine ⟨c, List.mem_filter.mpr ⟨hc, by simp [hcp]⟩, ?_⟩
      rw [hg]
      simp [hcg, hsame]
    rw [if_pos hany] at h
    cases h

lemma vec_ok_of {mem : GroupMem} {st : Store} {f : Folder}
    (h1 : f.access_type = "private" →
      ∀ c ∈ st, c.parent_folder = some f.id → c.access_type ≠ "public")
    (h2 : f.access_type = "private" → ∀ u, f.created_by = some u →
      ∀ c ∈ st, c.parent_folder = some f.id → c.access_type = "group" →
        ∀ g, c.group = some g → mem u g = true)
    (h3 : f.access_type = "group" → f.group ≠ none →
      ∀ c ∈ st, c.parent_folder = some f.id → c.access_type = "group" →
        ∀ g, c.group = some g → some g = f.group) :
    validate_existing_children mem st f = .ok () := by
  unfold validate_existing_children
  by_cases hpriv : f.access_type = "private"
  · rw [if_pos hpriv]
    have hany1 : (st.filter (fun c => c.parent_folder = some f.id)).any
        (fun c => c.access_type = "public") = false := by
      rw [List.any_eq_false]
      intro c hc
      rcases List.mem_filter.mp hc with ⟨hcs, hcp⟩
      simp only [decide_eq_true_eq] at hcp
      simp only [decide_eq_true_eq]
      exact h1 hpriv c hcs hcp
    rw [if_neg (by rw [hany1]; exact Bool.false_ne_true)]
    cases hcb : f.created_by with
    | none => rfl
    | some u =>
      simp only []
      have hany2 : (st.filter (fun c => c.parent_folder = some f.id)).any
          (fun c => c.access_type = "group" &&
            (match c.group with
             | some g => !(mem u g)
             | none => false)) = false := by
        rw [List.any_eq_false]
        intro c hc
        rcases List.mem_filter.mp hc with ⟨hcs, hcp⟩
        simp only [decide_eq_true_eq] at hcp
        cases hcg : c.group with
        | none => simp
        | some g =>
          by_cases hacc : c.access_type = "group"
          · have := h2 hpriv u hcb c hcs hcp hacc g hcg
            simp [this]
          · simp [hacc]
      rw [if_neg (by rw [hany2]; exact Bool.false_ne_true)]
  · rw [if_neg hpriv]
    by_cases hgrp : f.access_type = "group" ∧ f.group ≠ none
    · rw [if_pos hgrp]
      have hany3 : (st.filter (fun c => c.parent_folder = some f.id)).any
          (fun c => c.access_type = "group" &&
            (match c.group with
             | some g => !(some g = f.group : Bool)
             | none => false)) = false := by
        rw [List.any_eq_false]
        intro c hc
        rcases List.mem_filter.mp hc with ⟨hcs, hcp⟩
        simp only [decide_eq_true_eq] at hcp
        cases hcg : c.group with
        | none => simp
        | some g =>
          by_cases hacc : c.access_type = "group"
          · have := h3 hgrp.1 hgrp.2 c hcs hcp hacc g hcg
            simp [hacc, this]
          · simp [hacc]
      rw [if_neg (by rw [hany3]; exact Bool.false_ne_true)]
    · rw [if_neg hgrp]

/-! ### The inductive invariant of reachable tree states -/

/-- Primary keys are unique. -/
def IdsNodup (st : Store) : Prop := (ids st).Nodup

/-- Parent pointers are foreign keys into the table. -/
def ParentsOk (st : Store) : Prop :=
  ∀ f ∈ st, ∀ p, f.parent_folder = some p → p ∈ ids st

/-- `created_by` is auto-populated at creation and never cleared by a
folder mutation. -/
def OwnersOk (st : Store) : Prop := ∀ f ∈ st, f.created_by ≠ none

/-- Every stored `access_type` is one of the three choices. -/
def ChoicesOk (st : Store) : Prop := ∀ f ∈ st, f.access_type ∈ accessChoices

/-- Invariant I2: `access_type == group` exactly when `group` is set. -/
def I2Ok (st : Store) : Prop :=
  ∀ f ∈ st, (f.access_type = "group" → f.group ≠ none) ∧
    (f.access_type ≠ "group" → f.group = none)

/-- Direct-edge form of I3: a private parent has no public direct child. -/
def EdgeI3 (st : Store) : Prop :=
  ∀ p c, p ∈ st → c ∈ st → c.parent_folder = some p.id →
    p.access_type = "private" → c.access_type ≠ "public"

/-- Direct-edge form of I4: a group direct child of a private parent has the
parent-owner as a member. -/
def EdgeI4 (mem : GroupMem) (st : Store) : Prop :=
  ∀ p c, p ∈ st → c ∈ st → c.parent_folder = some p.id →
    p.access_type = "private" → c.access_type = "group" →
    ∃ u g, p.created_by = some u ∧ c.group = some g ∧ mem u g = true

/-- Direct-edge form of I5: a group direct child of a group parent carries
the same group. -/
def EdgeI5 (st : Store) : Prop :=
  ∀ p c, p ∈ st → c ∈ st → c.parent_folder = some p.id →
    p.access_type = "group" → c.access_type = "group" → c.group = p.group

/-- Invariant I6, as the code actually enforces it: no two sibling rows
*under a parent* share the `(name, access_type, group)` triple (the group
compared only for group folders).  Root rows carry a NULL `parent_folder`,
which every unique constraint skips, so they are exempt. -/
def I6Ok (st : Store) : Prop :=
  ∀ s t, s ∈ st → t ∈ st → s.id ≠ t.id → s.parent_folder ≠ none →
    ¬(s.name = t.name ∧ s.parent_folder = t.parent_folder ∧
      s.access_type = t.access_type ∧
      (s.access_type = "group" → s.group = t.group))

/-- No row returns to itself within ten parent hops: exactly the cycles the
bounded walk of `Folder.clean` is able to reject. -/
def NoShortCycle (st : Store) : Prop :=
  ∀ f ∈ st, ∀ k, 1 ≤ k → k ≤ 10 → stepN st k f.id ≠ some f.id

/-- The inductive invariant maintained by every validated mutation. -/
def StoreInv (mem : GroupMem) (st : Store) : Prop :=
  IdsNodup st ∧ ParentsOk st ∧ OwnersOk st ∧ ChoicesOk st ∧ I2Ok st ∧
    EdgeI3 st ∧ EdgeI4 mem st ∧ EdgeI5 st ∧ I6Ok st ∧ NoShortCycle st

/-- Under the invariant, the bounded cycle walk run for a stored row from its
own stored parent finds nothing. -/
lemma cycleFound_false_of_store_inv {mem : GroupMem} {st : Store} {f : Folder}
    (hinv : StoreInv mem st) (hf : f ∈ st) : cycleFound st false f = false := by
  obtain ⟨hnd, -, -, -, -, -, -, -, -, hnsc⟩ := hinv
  unfold cycleFound
  cases hpf : f.parent_folder with
  | none => rfl
  | some p =>
    simp only [Bool.if_false_left]
    by_cases hcs : cycleSearch st (some f.id) 10 p = true
    · exfalso
      rcases (cycleSearch_eq_true_iff st f.id 10 p).mp hcs with ⟨k, hk, hs⟩
      have hparent : parentOf st f.id = some p := by
        unfold parentOf
        rw [getFolder_eq_some_of_mem hnd hf]
        simpa using hpf
      have hstep : stepN st (k + 1) f.id = some f.id := by
        rw [stepN_succ, hparent]
        exact hs
      exact hnsc f hf (k + 1) (Nat.succ_le_succ (Nat.zero_le k))
        (Nat.succ_le_of_lt hk) hstep
    · simpa using hcs

/-- Under the invariant, revalidating any stored row unchanged passes
`full_clean`: the no-op update is always valid. -/
lemma noop_full_clean_ok {mem : GroupMem} {st : Store} {f : Folder}
    (hinv : StoreInv mem st) (hf : f ∈ st) : full_clean mem st false f = .ok () := by
  obtain ⟨hnd, hpar, hown, hcho, hi2, he3, he4, he5, hi6, hnsc⟩ := hinv
  rw [full_clean_ok_iff]
  refine ⟨(clean_fields_ok_iff f).mpr (hcho f hf), ?_, ?_⟩
  · rw [clean_ok_iff]
    refine ⟨cycleFound_false_of_store_inv ⟨hnd, hpar, hown, hcho, hi2, he3, he4, he5, hi6, hnsc⟩ hf, ?_, ?_, ?_⟩
    · rintro ⟨hg, hn⟩
      exact (hi2 f hf).1 hg hn
    · rintro ⟨hg, hn⟩
      exact hn ((hi2 f hf).2 hg)
    · rw [vpca_ok_iff]
      constructor
      · rw [parent_rules_ok_iff]
        intro p parent hpf hgp
        rcases getFolder_mem hgp with ⟨hpmem, hpid⟩
        have hedge : f.parent_folder = some parent.id := by rw [hpf, hpid]
        refine ⟨?_, ?_, ?_⟩
        · rintro ⟨hpriv, hpub⟩
          exact he3 parent f hpmem hf hedge hpriv hpub
        · intro hpriv hgrp
          rcases he4 parent f hpmem hf hedge hpriv hgrp with ⟨u, g, hu, hg, hm⟩
          unfold ownerInGroup
          rw [hu, hg]
          exact hm
        · intro hpgrp hgrp
          exact (he5 parent f hpmem hf hedge hpgrp hgrp).symm
      · intro _
        refine vec_ok_of ?_ ?_ ?_
        · intro hpriv c hc hcp
          exact he3 f c hf hc hcp hpriv
        · intro hpriv u hu c hc hcp hcg g hg
          rcases he4 f c hf hc hcp hpriv hcg with ⟨u2, g2, hu2, hg2, hm2⟩
          rw [hu] at hu2
          rw [hg] at hg2
          cases hu2
          cases hg2
          exact hm2
        · intro hgrp _ c hc hcp hcg g hg
          have := he5 f c hf hc hcp hgrp hcg
          rw [hg] at this
          exact this
  · rw [validate_unique_ok_iff]
    unfold hasDuplicate
    cases hpf : f.parent_folder with
    | none => rfl
    | some p =>
      rw [List.any_eq_false]
      intro s hs
      by_cases hsid : s.id = f.id
      · simp [hsid]
      · intro htrue
        rcases Bool.and_eq_true_iff.mp htrue with ⟨htrue, h4⟩
        rcases Bool.and_eq_true_iff.mp htrue with ⟨htrue, h3⟩
        rcases Bool.and_eq_true_iff.mp htrue with ⟨htrue, h2⟩
        have h1 : s.name = f.name := by
          rcases Bool.and_eq_true_iff.mp htrue with ⟨-, h1⟩
          exact of_decide_eq_true h1
        have h2' : s.parent_folder = f.parent_folder := by
          rw [hpf]
          exact of_decide_eq_true h2
        have h3' : s.access_type = f.access_type := of_decide_eq_true h3
        have hsnp : s.parent_folder ≠ none := by
          rw [h2', hpf]
          exact fun hc => Option.noConfusion hc
        refine hi6 s f hs hf hsid hsnp ⟨h1, h2', h3', ?_⟩
        intro hsg
        have hfg : f.access_type = "group" := h3' ▸ hsg
        rw [if_pos hfg] at h4
        cases hfgr : f.group with
        | none =>
          rw [hfgr] at h4
          cases h4
        | some g0 =>
          rw [hfgr] at h4
          simp only [] at h4
          exact of_decide_eq_true h4

/-! ### Preservation of the short-cycle-freedom invariant -/

lemma ownerInGroup_true_iff (mem : GroupMem) (o g : Option Nat) :
    ownerInGroup mem o g = true ↔
      ∃ uid gid, o = some uid ∧ g = some gid ∧ mem uid gid = true := by
  unfold ownerInGroup
  cases g with
  | none =>
    constructor
    · intro h
      cases h
    · rintro ⟨uid, gid, -, hg, -⟩
      cases hg
  | some gid =>
    cases o with
    | none =>
      constructor
      · intro h
        cases h
      · rintro ⟨uid, gid2, ho, -, -⟩
        cases ho
    | some uid =>
      constructor
      · intro h
        exact ⟨uid, gid, rfl, rfl, h⟩
      · rintro ⟨uid2, gid2, ho, hg, hm⟩
        cases ho
        cases hg
        exact hm

lemma cycleSearch_self (st : Store) (a : Nat) :
    cycleSearch st (some a) 10 a = true := by
  unfold cycleSearch
  rw [if_pos rfl]

lemma parentOf_eq {st : Store} {i : Nat} {o : Folder}
    (ho : getFolder st i = some o) : parentOf st i = o.parent_folder := by
  unfold parentOf
  rw [ho, Option.some_bind]

lemma stepN_append_sub {st : Store} {f : Folder}
    (hpar : ParentsOk st) :
    ∀ m i, i ∈ ids st → ∀ j, stepN (st ++ [f]) m i = some j →
      j ∈ ids st ∧ stepN st m i = some j := by
  intro m
  induction m with
  | zero =>
    intro i hi j hj
    rw [stepN_zero] at hj
    cases hj
    exact ⟨hi, rfl⟩
  | succ m ih =>
    intro i hi j hj
    rcases getFolder_of_mem_ids hi with ⟨o, ho, homem, hoid⟩
    have hg' : getFolder (st ++ [f]) i = some o := getFolder_append_of_mem f ho
    rw [stepN_succ, parentOf_eq hg'] at hj
    cases hpo : o.parent_folder with
    | none =>
      rw [hpo] at hj
      cases hj
    | some p =>
      rw [hpo, Option.some_bind] at hj
      have hp : p ∈ ids st := hpar o homem p hpo
      rcases ih p hp j hj with ⟨hjid, hjstep⟩
      refine ⟨hjid, ?_⟩
      rw [stepN_succ, parentOf_eq ho, hpo, Option.some_bind]
      exact hjstep

lemma noShortCycle_append {st : Store} {f : Folder}
    (hpar : ParentsOk st) (hnsc : NoShortCycle st) (hfresh : f.id ∉ ids st)
    (hfk : ∀ p, f.parent_folder = some p → p ∈ ids st) :
    NoShortCycle (st ++ [f]) := by
  intro g hg k hk1 hk10 hret
  rcases List.mem_append.mp hg with hgold | hgf
  · rcases stepN_append_sub hpar k g.id (mem_ids_of_mem hgold) g.id hret
      with ⟨-, hstep⟩
    exact hnsc g hgold k hk1 hk10 hstep
  · have hgf2 : g = f := by simpa using hgf
    cases hgf2
    cases k with
    | zero => exact absurd hk1 (by simp)
    | succ k =>
      have hgff : getFolder (st ++ [f]) f.id = some f := getFolder_append_fresh hfresh
      rw [stepN_succ, parentOf_eq hgff] at hret
      cases hpo : f.parent_folder with
      | none =>
        rw [hpo] at hret
        cases hret
      | some p =>
        rw [hpo, Option.some_bind] at hret
        rcases stepN_append_sub hpar k p (hfk p hpo) f.id hret
          with ⟨hjid, -⟩
        exact hfresh hjid

lemma noShortCycle_update_self {st : Store} {f old : Folder}
    (hold : old ∈ st) (holdid : old.id = f.id)
    (hcf : cycleFound st false f = false) :
    ∀ k, 1 ≤ k → k ≤ 10 → stepN (updateStore st f) k f.id ≠ some f.id := by
  intro k0 hk1 hk10 hret0
  have hfid : f.id ∈ ids st := holdid ▸ mem_ids_of_mem hold
  have hpself : parentOf (updateStore st f) f.id = f.parent_folder :=
    parentOf_updateStore_self hfid
  have hex : ∃ k, 1 ≤ k ∧ k ≤ 10 ∧ stepN (updateStore st f) k f.id = some f.id :=
    ⟨k0, hk1, hk10, hret0⟩
  obtain ⟨hk1', hk10', hret⟩ := Nat.find_spec hex
  have hmin : ∀ m, m < Nat.find hex →
      ¬(1 ≤ m ∧ m ≤ 10 ∧ stepN (updateStore st f) m f.id = some f.id) :=
    fun m hm => Nat.find_min hex hm
  cases hkk : Nat.find hex with
  | zero =>
    rw [hkk] at hk1'
    exact absurd hk1' (by simp)
  | succ k' =>
    rw [hkk] at hret hk10' hmin
    rw [stepN_succ, hpself] at hret
    cases hpo : f.parent_folder with
    | none =>
      rw [hpo] at hret
      cases hret
    | some p =>
      rw [hpo, Option.some_bind] at hret
      have hcs : cycleSearch st (some f.id) 10 p = false := by
        unfold cycleFound at hcf
        rw [hpo] at hcf
        simpa using hcf
      by_cases hpfid : p = f.id
      · cases hpfid
        cases k' with
        | zero =>
          rw [cycleSearch_self st f.id] at hcs
          cases hcs
        | succ k'' =>
          refine hmin (k'' + 1) (by omega) ⟨by omega, by omega, ?_⟩
          exact hret
      · have havoid : ∀ m, m < k' → stepN (updateStore st f) m p ≠ some f.id := by
          intro m hm hcontra
          refine hmin (m + 1) (by omega) ⟨by omega, by omega, ?_⟩
          rw [stepN_succ, hpself, hpo, Option.some_bind]
          exact hcontra
        have hagree : ∀ x, x ≠ f.id →
            parentOf (updateStore st f) x = parentOf st x :=
          fun x hx => parentOf_updateStore_ne hx
        have hcongr := stepN_congr hagree k' p havoid
        rw [hcongr] at hret
        have htrue : cycleSearch st (some f.id) 10 p = true := by
          rw [cycleSearch_eq_true_iff]
          exact ⟨k', by omega, hret⟩
        rw [htrue] at hcs
        cases hcs

lemma noShortCycle_update {st : Store} {f old : Folder}
    (hold : old ∈ st) (holdid : old.id = f.id)
    (hnsc : NoShortCycle st) (hcf : cycleFound st false f = false) :
    NoShortCycle (updateStore st f) := by
  intro g hg k hk1 hk10 hret
  rcases mem_updateStore hg with hgf | ⟨hgold, hgne⟩
  · cases hgf
    exact noShortCycle_update_self hold holdid hcf k hk1 hk10 hret
  · by_cases hhit : ∃ m, m < k ∧ stepN (updateStore st f) m g.id = some f.id
    · rcases hhit with ⟨m, hm, hhit⟩
      have h1 : stepN (updateStore st f) (m + k) g.id =
          (stepN (updateStore st f) k g.id).bind (stepN (updateStore st f) m) :=
        stepN_add (updateStore st f) m k g.id
      rw [hret, Option.some_bind, hhit] at h1
      have h2 : stepN (updateStore st f) (k + m) g.id =
          (stepN (updateStore st f) m g.id).bind (stepN (updateStore st f) k) :=
        stepN_add (updateStore st f) k m g.id
      rw [hhit, Option.some_bind] at h2
      rw [Nat.add_comm m k, h2] at h1
      exact noShortCycle_update_self hold holdid hcf k hk1 hk10 h1
    · push_neg at hhit
      have hagree : ∀ x, x ≠ f.id →
          parentOf (updateStore st f) x = parentOf st x :=
        fun x hx => parentOf_updateStore_ne hx
      have hcongr := stepN_congr hagree k g.id (fun m hm => hhit m hm)
      rw [hcongr] at hret
      exact hnsc g hgold k hk1 hk10 hret

/-! ### Facts extracted from a successful `full_clean` -/

lemma full_clean_ok_facts {mem : GroupMem} {st : Store} {isNew : Bool} {f : Folder}
    (hok : full_clean mem st isNew f = .ok ()) :
    f.access_type ∈ accessChoices ∧
    cycleFound st isNew f = false ∧
    (f.access_type = "group" → f.group ≠ none) ∧
    (f.access_type ≠ "group" → f.group = none) ∧
    (∀ p parent, f.parent_folder = some p → getFolder st p = some parent →
      ¬(parent.access_type = "private" ∧ f.access_type = "public") ∧
      (parent.access_type = "private" → f.access_type = "group" →
        ownerInGroup mem parent.created_by f.group = true) ∧
      (parent.access_type = "group" → f.access_type = "group" →
        parent.group = f.group)) ∧
    (isNew = false → validate_existing_children mem st f = .ok ()) ∧
    hasDuplicate isNew st f = false := by
  rw [full_clean_ok_iff] at hok
  obtain ⟨hcf, hcl, hvu⟩ := hok
  rw [clean_ok_iff] at hcl
  obtain ⟨hcyc, h2, h3, hvp⟩ := hcl
  rw [vpca_ok_iff] at hvp
  obtain ⟨hprules, hvec⟩ := hvp
  rw [parent_rules_ok_iff] at hprules
  refine ⟨(clean_fields_ok_iff f).mp hcf, hcyc, ?_, ?_, hprules, hvec,
    (validate_unique_ok_iff isNew st f).mp hvu⟩
  · intro hg hn
    exact h2 ⟨hg, hn⟩
  · intro hng
    by_contra hn
    exact h3 ⟨hng, hn⟩

lemma noclash_of_hasDuplicate_false {isNew : Bool} {st : Store} {f : Folder}
    {p : Nat} (hdup : hasDuplicate isNew st f = false)
    (hchf : f.access_type ∈ accessChoices)
    (hgrp : f.access_type = "group" → f.group ≠ none)
    (hpar : f.parent_folder = some p) :
    ∀ s ∈ st, (isNew = true ∨ s.id ≠ f.id) →
      ¬(s.name = f.name ∧ s.parent_folder = f.parent_folder ∧
        s.access_type = f.access_type ∧
        (s.access_type = "group" → s.group = f.group)) ∧
      ¬(f.name = s.name ∧ f.parent_folder = s.parent_folder ∧
        f.access_type = s.access_type ∧
        (f.access_type = "group" → f.group = s.group)) := by
  intro s hs hflag
  unfold hasDuplicate at hdup
  rw [hpar] at hdup
  have hpred := List.any_eq_false.mp hdup s hs
  have haux : ¬(s.name = f.name ∧ s.parent_folder = f.parent_folder ∧
      s.access_type = f.access_type ∧
      (s.access_type = "group" → s.group = f.group)) := by
    rintro ⟨h1, h2, h3, h4⟩
    apply hpred
    have hfirst : (isNew || !decide (s.id = f.id)) = true := by
      rcases hflag with h | h
      · rw [h]
        simp
      · simp [h]
    have hcond : (if f.access_type = "group" then
        (match f.group with
         | none => false
         | some _ => (s.group = f.group : Bool))
        else ((f.access_type = "private" : Bool) ||
          (f.access_type = "public" : Bool))) = true := by
      by_cases hg : f.access_type = "group"
      · rw [if_pos hg]
        have hsg : s.access_type = "group" := by rw [h3, hg]
        rcases Option.ne_none_iff_exists'.mp (hgrp hg) with ⟨g0, hg0⟩
        rw [hg0]
        simp [h4 hsg, hg0]
      · rw [if_neg hg]
        have hpp : f.access_type = "private" ∨ f.access_type = "public" := by
          simp only [accessChoices, List.mem_cons, List.not_mem_nil,
            or_false] at hchf
          rcases hchf with h | h | h
          · exact Or.inl h
          · exact Or.inr h
          · exact absurd h hg
        rcases hpp with h | h <;> simp [h]
    exact (by
      simp only [Bool.and_eq_true, decide_eq_true_eq]
      exact ⟨⟨⟨⟨hfirst, h1⟩, h2.trans hpar⟩, h3⟩, hcond⟩)
  refine ⟨haux, ?_⟩
  rintro ⟨h1, h2, h3, h4⟩
  exact haux ⟨h1.symm, h2.symm, h3.symm,
    fun hsg => (h4 (h3.trans hsg)).symm⟩

/-! ### The invariant is preserved by validated creates and updates -/

lemma storeInv_create {mem : GroupMem} {st : Store} {f : Folder} {u : Nat}
    (hinv : StoreInv mem st) (hfresh : f.id ∉ ids st)
    (hcb : f.created_by = some u)
    (hfk : ∀ p, f.parent_folder = some p → p ∈ ids st)
    (hok : full_clean mem st true f = .ok ()) :
    StoreInv mem (st ++ [f]) := by
  obtain ⟨hnd, hpar, hown, hcho, hi2, he3, he4, he5, hi6, hnsc⟩ := hinv
  obtain ⟨hchf, hcyc, hI2a, hI2b, hpr, -, hdup⟩ := full_clean_ok_facts hok
  have hmemchar : ∀ x : Folder, x ∈ st ++ [f] → x ∈ st ∨ x = f := by
    intro x hx
    rcases List.mem_append.mp hx with h | h
    · exact Or.inl h
    · exact Or.inr (by simpa using h)
  have hnoChildOfF : ∀ c ∈ st, c.parent_folder ≠ some f.id := by
    intro c hc hcp
    exact hfresh (hpar c hc f.id hcp)
  have hfnotselfparent : f.parent_folder ≠ some f.id := by
    intro hp
    exact hfresh (hfk f.id hp)
  refine ⟨?_, ?_, ?_, ?_, ?_, ?_, ?_, ?_, ?_, ?_⟩
  · unfold IdsNodup
    rw [ids_append]
    refine List.Nodup.append hnd (List.nodup_singleton f.id) ?_
    intro a ha hb
    have hab : a = f.id := by simpa using hb
    exact hfresh (hab ▸ ha)
  · intro x hx p hp
    rw [ids_append]
    rcases hmemchar x hx with h | h
    · exact List.mem_append_left _ (hpar x h p hp)
    · cases h
      exact List.mem_append_left _ (hfk p hp)
  · intro x hx
    rcases hmemchar x hx with h | h
    · exact hown x h
    · cases h
      rw [hcb]
      simp
  · intro x hx
    rcases hmemchar x hx with h | h
    · exact hcho x h
    · cases h
      exact hchf
  · intro x hx
    rcases hmemchar x hx with h | h
    · exact hi2 x h
    · cases h
      exact ⟨hI2a, hI2b⟩
  · intro p c hp hc hedge hpriv
    rcases hmemchar c hc with hcold | hcf
    · rcases hmemchar p hp with hpold | hpf
      · exact he3 p c hpold hcold hedge hpriv
      · cases hpf
        exact absurd hedge (hnoChildOfF c hcold)
    · cases hcf
      rcases hmemchar p hp with hpold | hpf
      · have hg : getFolder st p.id = some p := getFolder_eq_some_of_mem hnd hpold
        exact fun hpub => (hpr p.id p hedge hg).1 ⟨hpriv, hpub⟩
      · cases hpf
        exact absurd hedge hfnotselfparent
  · intro p c hp hc hedge hpriv hcgrp
    rcases hmemchar c hc with hcold | hcf
    · rcases hmemchar p hp with hpold | hpf
      · exact he4 p c hpold hcold hedge hpriv hcgrp
      · cases hpf
        exact absurd hedge (hnoChildOfF c hcold)
    · cases hcf
      rcases hmemchar p hp with hpold | hpf
      · have hg : getFolder st p.id = some p := getFolder_eq_some_of_mem hnd hpold
        rcases (ownerInGroup_true_iff mem p.created_by f.group).mp
          ((hpr p.id p hedge hg).2.1 hpriv hcgrp) with ⟨uid, gid, hu, hgg, hm⟩
        exact ⟨uid, gid, hu, hgg, hm⟩
      · cases hpf
        exact absurd hedge hfnotselfparent
  · intro p c hp hc hedge hpgrp hcgrp
    rcases hmemchar c hc with hcold | hcf
    · rcases hmemchar p hp with hpold | hpf
      · exact he5 p c hpold hcold hedge hpgrp hcgrp
      · cases hpf
        exact absurd hedge (hnoChildOfF c hcold)
    · cases hcf
      rcases hmemchar p hp with hpold | hpf
      · have hg : getFolder st p.id = some p := getFolder_eq_some_of_mem hnd hpold
        exact ((hpr p.id p hedge hg).2.2 hpgrp hcgrp).symm
      · cases hpf
        exact absurd hedge hfnotselfparent
  · intro s t hs ht hst hsnp
    rcases hmemchar s hs with hsold | hsf
    · rcases hmemchar t ht with htold | htf
      · exact hi6 s t hsold htold hst hsnp
      · cases htf
        by_cases hpfc : f.parent_folder = none
        · rintro ⟨-, h2, -, -⟩
          exact hsnp (h2.trans hpfc)
        · rcases Option.ne_none_iff_exists'.mp hpfc with ⟨p, hp⟩
          exact (noclash_of_hasDuplicate_false hdup hchf hI2a hp
            s hsold (Or.inl rfl)).1
    · cases hsf
      rcases hmemchar t ht with htold | htf
      · rcases Option.ne_none_iff_exists'.mp hsnp with ⟨p, hp⟩
        exact (noclash_of_hasDuplicate_false hdup hchf hI2a hp
          t htold (Or.inl rfl)).2
      · cases htf
        exact absurd rfl hst
  · exact noShortCycle_append hpar hnsc hfresh hfk

lemma storeInv_update {mem : GroupMem} {st : Store} {f old : Folder}
    (hinv : StoreInv mem st) (hold : old ∈ st) (holdid : old.id = f.id)
    (hcbeq : old.created_by = f.created_by)
    (hfk : ∀ p, f.parent_folder = some p → p ∈ ids st)
    (hok : full_clean mem st false f = .ok ()) :
    StoreInv mem (updateStore st f) := by
  obtain ⟨hnd, hpar, hown, hcho, hi2, he3, he4, he5, hi6, hnsc⟩ := hinv
  obtain ⟨hchf, hcyc, hI2a, hI2b, hpr, hvecf, hdup⟩ := full_clean_ok_facts hok
  have hvec : validate_existing_children mem st f = .ok () := hvecf rfl
  have hfnotselfparent : f.parent_folder ≠ some f.id := by
    intro hp
    unfold cycleFound at hcyc
    rw [hp] at hcyc
    simp [cycleSearch_self st f.id] at hcyc
  have hfcb : ∃ u, f.created_by = some u := by
    have h1 := hown old hold
    rw [hcbeq] at h1
    exact Option.ne_none_iff_exists'.mp h1
  refine ⟨?_, ?_, ?_, ?_, ?_, ?_, ?_, ?_, ?_, ?_⟩
  · unfold IdsNodup
    rw [ids_updateStore]
    exact hnd
  · intro x hx p hp
    rw [ids_updateStore]
    rcases mem_updateStore hx with h | ⟨h, -⟩
    · cases h
      exact hfk p hp
    · exact hpar x h p hp
  · intro x hx
    rcases mem_updateStore hx with h | ⟨h, -⟩
    · cases h
      rw [← hcbeq]
      exact hown old hold
    · exact hown x h
  · intro x hx
    rcases mem_updateStore hx with h | ⟨h, -⟩
    · cases h
      exact hchf
    · exact hcho x h
  · intro x hx
    rcases mem_updateStore hx with h | ⟨h, -⟩
    · cases h
      exact ⟨hI2a, hI2b⟩
    · exact hi2 x h
  · intro p c hp hc hedge hpriv
    rcases mem_updateStore hc with hcf | ⟨hcold, hcne⟩
    · cases hcf
      rcases mem_updateStore hp with hpf | ⟨hpold, hpne⟩
      · cases hpf
        exact absurd hedge hfnotselfparent
      · have hg : getFolder st p.id = some p := getFolder_eq_some_of_mem hnd hpold
        exact fun hpub => (hpr p.id p hedge hg).1 ⟨hpriv, hpub⟩
    · rcases mem_updateStore hp with hpf | ⟨hpold, hpne⟩
      · cases hpf
        exact vec_ok_no_public_child hvec hpriv c hcold hedge
      · exact he3 p c hpold hcold hedge hpriv
  · intro p c hp hc hedge hpriv hcgrp
    rcases mem_updateStore hc with hcf | ⟨hcold, hcne⟩
    · cases hcf
      rcases mem_updateStore hp with hpf | ⟨hpold, hpne⟩
      · cases hpf
        exact absurd hedge hfnotselfparent
      · have hg : getFolder st p.id = some p := getFolder_eq_some_of_mem hnd hpold
        rcases (ownerInGroup_true_iff mem p.created_by f.group).mp
          ((hpr p.id p hedge hg).2.1 hpriv hcgrp) with ⟨uid, gid, hu, hgg, hm⟩
        exact ⟨uid, gid, hu, hgg, hm⟩
    · rcases mem_updateStore hp with hpf | ⟨hpold, hpne⟩
      · cases hpf
        rcases hfcb with ⟨uo, huo⟩
        rcases Option.ne_none_iff_exists'.mp ((hi2 c hcold).1 hcgrp) with ⟨gc, hgc⟩
        exact ⟨uo, gc, huo,
          hgc, vec_ok_group_children hvec hpriv huo c hcold hedge hcgrp gc hgc⟩
      · exact he4 p c hpold hcold hedge hpriv hcgrp
  · intro p c hp hc hedge hpgrp hcgrp
    rcases mem_updateStore hc with hcf | ⟨hcold, hcne⟩
    · cases hcf
      rcases mem_updateStore hp with hpf | ⟨hpold, hpne⟩
      · cases hpf
        exact absurd hedge hfnotselfparent
      · have hg : getFolder st p.id = some p := getFolder_eq_some_of_mem hnd hpold
        exact ((hpr p.id p hedge hg).2.2 hpgrp hcgrp).symm
    · rcases mem_updateStore hp with hpf | ⟨hpold, hpne⟩
      · cases hpf
        rcases Option.ne_none_iff_exists'.mp ((hi2 c hcold).1 hcgrp) with ⟨gc, hgc⟩
        have := vec_ok_group_mismatch hvec hpgrp (hI2a hpgrp) c hcold hedge hcgrp gc hgc
        rw [hgc]
        exact this
      · exact he5 p c hpold hcold hedge hpgrp hcgrp
  · intro s t hs ht hst hsnp
    rcases mem_updateStore hs with hsf | ⟨hsold, hsne⟩
    · cases hsf
      rcases mem_updateStore ht with htf | ⟨htold, htne⟩
      · cases htf
        exact absurd rfl hst
      · rcases Option.ne_none_iff_exists'.mp hsnp with ⟨p, hp⟩
        exact (noclash_of_hasDuplicate_false hdup hchf hI2a hp
          t htold (Or.inr htne)).2
    · rcases mem_updateStore ht with htf | ⟨htold, htne⟩
      · cases htf
        by_cases hpfc : f.parent_folder = none
        · rintro ⟨-, h2, -, -⟩
          exact hsnp (h2.trans hpfc)
        · rcases Option.ne_none_iff_exists'.mp hpfc with ⟨p, hp⟩
          exact (noclash_of_hasDuplicate_false hdup hchf hI2a hp
            s hsold (Or.inr hsne)).1
      · exact hi6 s t hsold htold hst hsnp
  · exact noShortCycle_update hold holdid hnsc hcyc

/-- Every reachable tree state satisfies the inductive invariant. -/
theorem reachable_storeInv {mem : GroupMem} {st : Store}
    (h : Reachable mem st) : StoreInv mem st := by
  induction h with
  | nil =>
    refine ⟨List.nodup_nil, ?_, ?_, ?_, ?_, ?_, ?_, ?_, ?_, ?_⟩
    · intro a ha
      cases ha
    · intro a ha
      cases ha
    · intro a ha
      cases ha
    · intro a ha
      cases ha
    · intro p c hp hc
      cases hp
    · intro p c hp hc
      cases hp
    · intro p c hp hc
      cases hp
    · intro s t hs ht
      cases hs
    · intro g hg
      cases hg
  | create st f u hr hfresh hcb hfk hok ih =>
    exact storeInv_create ih hfresh hcb hfk hok
  | update st f old hr hold holdid hcbeq hfk hok ih =>
    exact storeInv_update ih hold holdid hcbeq hfk hok

/-! ### The stable depth sorts of the bulk actions -/

lemma insertAsc_perm (x : Nat × Nat) (l : List (Nat × Nat)) :
    (insertAsc x l).Perm (x :: l) := by
  induction l with
  | nil => rfl
  | cons y ys ih =>
    unfold insertAsc
    by_cases h : y.1 < x.1
    · rw [if_pos h]
      exact (ih.cons y).trans (List.Perm.swap x y ys)
    · rw [if_neg h]

lemma sortAscStable_perm (l : List (Nat × Nat)) : (sortAscStable l).Perm l := by
  induction l with
  | nil => rfl
  | cons x xs ih =>
    exact (insertAsc_perm x (sortAscStable xs)).trans (ih.cons x)

lemma insertAsc_pairwise {x : Nat × Nat} {l : List (Nat × Nat)}
    (h : l.Pairwise (fun a b => a.1 ≤ b.1)) :
    (insertAsc x l).Pairwise (fun a b => a.1 ≤ b.1) := by
  induction l with
  | nil => exact List.pairwise_singleton _ x
  | cons y ys ih =>
    rcases List.pairwise_cons.mp h with ⟨hy, hys⟩
    unfold insertAsc
    by_cases hc : y.1 < x.1
    · rw [if_pos hc]
      refine List.pairwise_cons.mpr ⟨?_, ih hys⟩
      intro b hb
      rcases List.mem_cons.mp (((insertAsc_perm x ys).mem_iff).mp hb) with hbx | hbys
      · cases hbx
        exact Nat.le_of_lt hc
      · exact hy b hbys
    · rw [if_neg hc]
      refine List.pairwise_cons.mpr ⟨?_, h⟩
      intro b hb
      rcases List.mem_cons.mp hb with hby | hbys
      · cases hby
        exact Nat.le_of_not_lt hc
      · exact Nat.le_trans (Nat.le_of_not_lt hc) (hy b hbys)

lemma sortAscStable_pairwise (l : List (Nat × Nat)) :
    (sortAscStable l).Pairwise (fun a b => a.1 ≤ b.1) := by
  induction l with
  | nil => exact List.Pairwise.nil
  | cons x xs ih => exact insertAsc_pairwise ih

lemma insertDesc_perm (x : Nat × Nat) (l : List (Nat × Nat)) :
    (insertDesc x l).Perm (x :: l) := by
  induction l with
  | nil => rfl
  | cons y ys ih =>
    unfold insertDesc
    by_cases h : x.1 < y.1
    · rw [if_pos h]
      exact (ih.cons y).trans (List.Perm.swap x y ys)
    · rw [if_neg h]

lemma sortDescStable_perm (l : List (Nat × Nat)) : (sortDescStable l).Perm l := by
  induction l with
  | nil => rfl
  | cons x xs ih =>
    exact (insertDesc_perm x (sortDescStable xs)).trans (ih.cons x)

lemma insertDesc_pairwise {x : Nat × Nat} {l : List (Nat × Nat)}
    (h : l.Pairwise (fun a b => b.1 ≤ a.1)) :
    (insertDesc x l).Pairwise (fun a b => b.1 ≤ a.1) := by
  induction l with
  | nil => exact List.pairwise_singleton _ x
  | cons y ys ih =>
    rcases List.pairwise_cons.mp h with ⟨hy, hys⟩
    unfold insertDesc
    by_cases hc : x.1 < y.1
    · rw [if_pos hc]
      refine List.pairwise_cons.mpr ⟨?_, ih hys⟩
      intro b hb
      rcases List.mem_cons.mp (((insertDesc_perm x ys).mem_iff).mp hb) with hbx | hbys
      · cases hbx
        exact Nat.le_of_lt hc
      · exact hy b hbys
    · rw [if_neg hc]
      refine List.pairwise_cons.mpr ⟨?_, h⟩
      intro b hb
      rcases List.mem_cons.mp hb with hby | hbys
      · cases hby
        exact Nat.le_of_not_lt hc
      · exact Nat.le_trans (hy b hbys) (Nat.le_of_not_lt hc)

lemma sortDescStable_pairwise (l : List (Nat × Nat)) :
    (sortDescStable l).Pairwise (fun a b => b.1 ≤ a.1) := by
  induction l with
  | nil => exact List.Pairwise.nil
  | cons x xs ih => exact insertDesc_pairwise ih

lemma planPublic_perm (st : Store) (batch : List Nat) :
    (planPublic st batch).Perm batch := by
  unfold planPublic
  have h1 := (sortAscStable_perm
    (batch.map (fun i => (depthOfId st st.length i, i)))).map (fun x : Nat × Nat => x.2)
  refine h1.trans ?_
  rw [List.map_map]
  rw [show ((fun x : Nat × Nat => x.2) ∘ (fun i => (depthOfId st st.length i, i))) = id from rfl,
    List.map_id]

lemma planPrivate_perm (st : Store) (batch : List Nat) :
    (planPrivate st batch).Perm batch := by
  unfold planPrivate
  have h1 := (sortDescStable_perm
    (batch.map (fun i => (depthOfId st st.length i, i)))).map (fun x : Nat × Nat => x.2)
  refine h1.trans ?_
  rw [List.map_map]
  rw [show ((fun x : Nat × Nat => x.2) ∘ (fun i => (depthOfId st st.length i, i))) = id from rfl,
    List.map_id]

lemma planPublic_sorted (st : Store) (batch : List Nat) :
    (planPublic st batch).Pairwise
      (fun a b => depthOfId st st.length a ≤ depthOfId st st.length b) := by
  unfold planPublic
  rw [List.pairwise_map]
  have hkey : ∀ x ∈ sortAscStable (batch.map (fun i => (depthOfId st st.length i, i))),
      x.1 = depthOfId st st.length x.2 := by
    intro x hx
    have hx2 := (sortAscStable_perm _).mem_iff.mp hx
    rcases List.mem_map.mp hx2 with ⟨i, -, hi⟩
    rw [← hi]
  have hp := sortAscStable_pairwise (batch.map (fun i => (depthOfId st st.length i, i)))
  refine List.Pairwise.imp_of_mem ?_ hp
  intro a b ha hb hab
  rw [← hkey a ha, ← hkey b hb]
  exact hab

lemma planPrivate_sorted (st : Store) (batch : List Nat) :
    (planPrivate st batch).Pairwise
      (fun a b => depthOfId st st.length b ≤ depthOfId st st.length a) := by
  unfold planPrivate
  rw [List.pairwise_map]
  have hkey : ∀ x ∈ sortDescStable (batch.map (fun i => (depthOfId st st.length i, i))),
      x.1 = depthOfId st st.length x.2 := by
    intro x hx
    have hx2 := (sortDescStable_perm _).mem_iff.mp hx
    rcases List.mem_map.mp hx2 with ⟨i, -, hi⟩
    rw [← hi]
  have hp := sortDescStable_pairwise (batch.map (fun i => (depthOfId st st.length i, i)))
  refine List.Pairwise.imp_of_mem ?_ hp
  intro a b ha hb hab
  rw [← hkey a ha, ← hkey b hb]
  exact hab

/-! ### Support lemmas for the query and bulk-action claims -/

lemma mem_accessible_iff (mem : GroupMem) (st : Store) (u : Nat) (f : Folder) :
    f ∈ get_user_accessible_folders mem st u ↔
      f ∈ st ∧ ((f.access_type = "private" ∧ f.created_by = some u) ∨
        f.access_type = "public" ∨
        (f.access_type = "group" ∧ ∃ g, f.group = some g ∧ mem u g = true)) := by
  unfold get_user_accessible_folders
  rw [List.mem_filter]
  have hpred : ((f.access_type = "private" && f.created_by = some u) ||
      (f.access_type = "public" : Bool) ||
      (f.access_type = "group" &&
        (match f.group with
         | some g => mem u g
         | none => false))) = true ↔
      ((f.access_type = "private" ∧ f.created_by = some u) ∨
        f.access_type = "public" ∨
        (f.access_type = "group" ∧ ∃ g, f.group = some g ∧ mem u g = true)) := by
    cases hg : f.group with
    | none => simp [hg]
    | some g0 =>
      simp [hg]
      tauto
  rw [hpred]

lemma accessible_nodup {mem : GroupMem} {st : Store} {u : Nat}
    (hnd : IdsNodup st) : (get_user_accessible_folders mem st u).Nodup := by
  have hstn : st.Nodup := List.Nodup.of_map (fun f : Folder => f.id) hnd
  exact hstn.filter _

lemma reclassStep_error (mem : GroupMem) (target : String) (r : BatchResult)
    (i : Nat) (fOld : Folder) (e : VErr)
    (hget : getFolder r.store i = some fOld)
    (hne : fOld.access_type ≠ target)
    (herr : full_clean mem r.store false (setMode fOld target) = .error e) :
    reclassStep mem target r i =
      { r with errors := r.errors ++ [(fOld.name, e)] } := by
  unfold reclassStep
  rw [hget]
  simp only []
  rw [if_neg hne, herr]

lemma reclassStep_ok (mem : GroupMem) (target : String) (r : BatchResult)
    (i : Nat) (fOld : Folder)
    (hget : getFolder r.store i = some fOld)
    (hne : fOld.access_type ≠ target)
    (hokk : full_clean mem r.store false (setMode fOld target) = .ok ()) :
    reclassStep mem target r i =
      { store := updateStore r.store (setMode fOld target),
        count := r.count + 1, errors := r.errors } := by
  unfold reclassStep
  rw [hget]
  simp only []
  rw [if_neg hne, hokk]

/-! ### Claim theorems -/

lemma storeInv_edgeI3 {mem : GroupMem} {st : Store} (h : StoreInv mem st) :
    EdgeI3 st := h.2.2.2.2.2.1

lemma storeInv_edgeI4 {mem : GroupMem} {st : Store} (h : StoreInv mem st) :
    EdgeI4 mem st := h.2.2.2.2.2.2.1

lemma storeInv_i6 {mem : GroupMem} {st : Store} (h : StoreInv mem st) :
    I6Ok st := h.2.2.2.2.2.2.2.2.1

/-- C1 data: membership making user 0 a member of group 0. -/
def c1mem : GroupMem := fun u g => u = 0 && g = 0

/-- C1 data: a private root owned by user 0. -/
def c1P : Folder := ⟨0, "P", none, some 0, "private", none⟩

/-- C1 data: a group folder (group 0) created under the private root; valid
because the root owner is a member of group 0. -/
def c1M : Folder := ⟨1, "M", some 0, some 0, "group", some 0⟩

/-- C1 data: a public folder created under the group folder; no rule of
`_validate_parent_child_access` inspects the grandparent. -/
def c1D : Folder := ⟨2, "D", some 1, some 0, "public", none⟩

lemma c1_reachable : Reachable c1mem [c1P, c1M, c1D] := by
  have h1 : Reachable c1mem ([] ++ [c1P]) := by
    refine Reachable.create [] c1P 0 Reachable.nil ?_ ?_ ?_ ?_
    · decide
    · rfl
    · intro p hp
      cases hp
    · rfl
  have h2 : Reachable c1mem ([c1P] ++ [c1M]) := by
    refine Reachable.create [c1P] c1M 0 h1 ?_ ?_ ?_ ?_
    · decide
    · rfl
    · intro p hp
      cases hp
      decide
    · rfl
  have h3 : Reachable c1mem ([c1P, c1M] ++ [c1D]) := by
    refine Reachable.create [c1P, c1M] c1D 0 h2 ?_ ?_ ?_ ?_
    · decide
    · rfl
    · intro p hp
      cases hp
      decide
    · rfl
  exact h3

/-- C1 (counterexample): the claimed any-depth invariant I3 is false on the
code.  Three validated creates produce `P(private) <- M(group) <- D(public)`:
every mutation passes validation, yet the private folder `P` has the public
folder `D` as a depth-2 descendant, because each validation step only
compares a folder with its immediate parent. -/
theorem C1_counterexample :
    Reachable c1mem [c1P, c1M, c1D] ∧
    c1P ∈ [c1P, c1M, c1D] ∧ c1D ∈ [c1P, c1M, c1D] ∧
    c1P.access_type = "private" ∧
    c1P.id ∈ ancestorIds [c1P, c1M, c1D] 10 c1D.id ∧
    c1D.access_type = "public" := by
  refine ⟨c1_reachable, by decide, by decide, rfl, by decide, rfl⟩

/-- C1 (amended): in every reachable tree state, no folder with
`access_mode` Private has a public *direct child*; the code enforces I3 only
one edge at a time. -/
theorem C1_no_public_under_private_direct :
    ∀ (mem : GroupMem) (st : Store), Reachable mem st →
      ∀ p c, p ∈ st → c ∈ st → c.parent_folder = some p.id →
        p.access_type = "private" → c.access_type ≠ "public" := by
  intro mem st h
  exact storeInv_edgeI3 (reachable_storeInv h)

/-- C1 witness data: a private root with a private child. -/
def c1wP : Folder := ⟨0, "r", none, some 0, "private", none⟩

/-- C1 witness data: the private child of `c1wP`. -/
def c1wC : Folder := ⟨1, "s", some 0, some 0, "private", none⟩

lemma c1w_reachable : Reachable c1mem [c1wP, c1wC] := by
  have h1 : Reachable c1mem ([] ++ [c1wP]) := by
    refine Reachable.create [] c1wP 0 Reachable.nil ?_ ?_ ?_ ?_
    · decide
    · rfl
    · intro p hp
      cases hp
    · rfl
  have h2 : Reachable c1mem ([c1wP] ++ [c1wC]) := by
    refine Reachable.create [c1wP] c1wC 0 h1 ?_ ?_ ?_ ?_
    · decide
    · rfl
    · intro p hp
      cases hp
      decide
    · rfl
  exact h2

/-- Witness for the amended C1 at a concrete reachable two-folder state. -/
theorem C1_no_public_under_private_direct_witness :
    c1wC.access_type ≠ "public" :=
  C1_no_public_under_private_direct c1mem [c1wP, c1wC] c1w_reachable
    c1wP c1wC (by decide) (by decide) (by decide) rfl

/-- Row 0 of the C2 chain (all public, child of the previous row). -/
def c2f0 : Folder := ⟨0, "f0", none, some 0, "public", none⟩

/-- Row 1 of the C2 chain (all public, child of the previous row). -/
def c2f1 : Folder := ⟨1, "f1", some 0, some 0, "public", none⟩

/-- Row 2 of the C2 chain (all public, child of the previous row). -/
def c2f2 : Folder := ⟨2, "f2", some 1, some 0, "public", none⟩

/-- Row 3 of the C2 chain (all public, child of the previous row). -/
def c2f3 : Folder := ⟨3, "f3", some 2, some 0, "public", none⟩

/-- Row 4 of the C2 chain (all public, child of the previous row). -/
def c2f4 : Folder := ⟨4, "f4", some 3, some 0, "public", none⟩

/-- Row 5 of the C2 chain (all public, child of the previous row). -/
def c2f5 : Folder := ⟨5, "f5", some 4, some 0, "public", none⟩

/-- Row 6 of the C2 chain (all public, child of the previous row). -/
def c2f6 : Folder := ⟨6, "f6", some 5, some 0, "public", none⟩

/-- Row 7 of the C2 chain (all public, child of the previous row). -/
def c2f7 : Folder := ⟨7, "f7", some 6, some 0, "public", none⟩

/-- Row 8 of the C2 chain (all public, child of the previous row). -/
def c2f8 : Folder := ⟨8, "f8", some 7, some 0, "public", none⟩

/-- Row 9 of the C2 chain (all public, child of the previous row). -/
def c2f9 : Folder := ⟨9, "f9", some 8, some 0, "public", none⟩

/-- Row 10 of the C2 chain (all public, child of the previous row). -/
def c2f10 : Folder := ⟨10, "f10", some 9, some 0, "public", none⟩

/-- Row 11 of the C2 chain (all public, child of the previous row). -/
def c2f11 : Folder := ⟨11, "f11", some 10, some 0, "public", none⟩

/-- The 12-row chain `f0 <- f1 <- ... <- f11` (each row the parent of the next). -/
def c2st : Store := [c2f0, c2f1, c2f2, c2f3, c2f4, c2f5, c2f6, c2f7, c2f8, c2f9, c2f10, c2f11]

/-- The reassignment that closes the cycle: `f0.parent_folder = f11`. -/
def c2f0upd : Folder := ⟨0, "f0", some 11, some 0, "public", none⟩

def c2mem : GroupMem := fun _ _ => false

lemma c2st_reachable : Reachable c2mem c2st := by
  have h0 : Reachable c2mem ([] ++ [c2f0]) := by
    refine Reachable.create [] c2f0 0 Reachable.nil ?_ ?_ ?_ ?_
    · decide
    · rfl
    · intro p hp
      cases hp
    · rfl
  have h1 : Reachable c2mem ([c2f0] ++ [c2f1]) := by
    refine Reachable.create [c2f0] c2f1 0 h0 ?_ ?_ ?_ ?_
    · decide
    · rfl
    · intro p hp
      cases hp
      decide
    · rfl
  have h2 : Reachable c2mem ([c2f0, c2f1] ++ [c2f2]) := by
    refine Reachable.create [c2f0, c2f1] c2f2 0 h1 ?_ ?_ ?_ ?_
    · decide
    · rfl
    · intro p hp
      cases hp
      decide
    · rfl
  have h3 : Reachable c2mem ([c2f0, c2f1, c2f2] ++ [c2f3]) := by
    refine Reachable.create [c2f0, c2f1, c2f2] c2f3 0 h2 ?_ ?_ ?_ ?_
    · decide
    · rfl
    · intro p hp
      cases hp
      decide
    · rfl
  have h4 : Reachable c2mem ([c2f0, c2f1, c2f2, c2f3] ++ [c2f4]) := by
    refine Reachable.create [c2f0, c2f1, c2f2, c2f3] c2f4 0 h3 ?_ ?_ ?_ ?_
    · decide
    · rfl
    · intro p hp
      cases hp
      decide
    · rfl
  have h5 : Reachable c2mem ([c2f0, c2f1, c2f2, c2f3, c2f4] ++ [c2f5]) := by
    refine Reachable.create [c2f0, c2f1, c2f2, c2f3, c2f4] c2f5 0 h4 ?_ ?_ ?_ ?_
    · decide
    · rfl
    · intro p hp
      cases hp
      decide
    · rfl
  have h6 : Reachable c2mem ([c2f0, c2f1, c2f2, c2f3, c2f4, c2f5] ++ [c2f6]) := by
    refine Reachable.create [c2f0, c2f1, c2f2, c2f3, c2f4, c2f5] c2f6 0 h5 ?_ ?_ ?_ ?_
    · decide
    · rfl
    · intro p hp
      cases hp
      decide
    · rfl
  have h7 : Reachable c2mem ([c2f0, c2f1, c2f2, c2f3, c2f4, c2f5, c2f6] ++ [c2f7]) := by
    refine Reachable.create [c2f0, c2f1, c2f2, c2f3, c2f4, c2f5, c2f6] c2f7 0 h6 ?_ ?_ ?_ ?_
    · decide
    · rfl
    · intro p hp
      cases hp
      decide
    · rfl
  have h8 : Reachable c2mem ([c2f0, c2f1, c2f2, c2f3, c2f4, c2f5, c2f6, c2f7] ++ [c2f8]) := by
    refine Reachable.create [c2f0, c2f1, c2f2, c2f3, c2f4, c2f5, c2f6, c2f7] c2f8 0 h7 ?_ ?_ ?_ ?_
    · decide
    · rfl
    · intro p hp
      cases hp
      decide
    · rfl
  have h9 : Reachable c2mem ([c2f0, c2f1, c2f2, c2f3, c2f4, c2f5, c2f6, c2f7, c2f8] ++ [c2f9]) := by
    refine Reachable.create [c2f0, c2f1, c2f2, c2f3, c2f4, c2f5, c2f6, c2f7, c2f8] c2f9 0 h8 ?_ ?_ ?_ ?_
    · decide
    · rfl
    · intro p hp
      cases hp
      decide
    · rfl
  have h10 : Reachable c2mem ([c2f0, c2f1, c2f2, c2f3, c2f4, c2f5, c2f6, c2f7, c2f8, c2f9] ++ [c2f10]) := by
    refine Reachable.create [c2f0, c2f1, c2f2, c2f3, c2f4, c2f5, c2f6, c2f7, c2f8, c2f9] c2f10 0 h9 ?_ ?_ ?_ ?_
    · decide
    · rfl
    · intro p hp
      cases hp
      decide
    · rfl
  have h11 : Reachable c2mem ([c2f0, c2f1, c2f2, c2f3, c2f4, c2f5, c2f6, c2f7, c2f8, c2f9, c2f10] ++ [c2f11]) := by
    refine Reachable.create [c2f0, c2f1, c2f2, c2f3, c2f4, c2f5, c2f6, c2f7, c2f8, c2f9, c2f10] c2f11 0 h10 ?_ ?_ ?_ ?_
    · decide
    · rfl
    · intro p hp
      cases hp
      decide
    · rfl
  exact h11

/-- C2 (code bug): the cycle walk of `Folder.clean` caps at 10 hops, so it
misses the new parent chain's deeper entries.  On a reachable 12-folder
chain, re-parenting the root `f0` under the leaf `f11` passes `full_clean`
even though `f0` is among the prospective ancestors (the ancestor chain of
`f11`), and afterwards `f0` is its own ancestor — I1 is violated. -/
theorem C2_cycle_bound_bug :
    Reachable c2mem c2st ∧
    0 ∈ ancestorIds c2st 12 11 ∧
    full_clean c2mem c2st false c2f0upd = .ok () ∧
    applyUpdate c2mem c2st c2f0upd = .ok (updateStore c2st c2f0upd) ∧
    Reachable c2mem (updateStore c2st c2f0upd) ∧
    0 ∈ ancestorIds (updateStore c2st c2f0upd) 13 0 := by
  refine ⟨c2st_reachable, by decide, by rfl, by rfl, ?_, by decide⟩
  refine Reachable.update c2st c2f0upd c2f0 c2st_reachable ?_ ?_ ?_ ?_ ?_
  · decide
  · rfl
  · rfl
  · intro p hp
    cases hp
    decide
  · rfl

/-- C3 data: membership making only user 1 a member of group 0. -/
def c3mem : GroupMem := fun u g => u = 1 && g = 0

/-- C3 data: a private root owned by user 0 (who is in no group). -/
def c3P : Folder := ⟨0, "P", none, some 0, "private", none⟩

/-- C3 data: a private folder under the root, owned by user 1. -/
def c3M : Folder := ⟨1, "M", some 0, some 1, "private", none⟩

/-- C3 data: a group-0 folder created under `c3M`; valid because `c3M`'s
owner (user 1) is a member of group 0 — the grandparent's owner is not
consulted. -/
def c3D : Folder := ⟨2, "D", some 1, some 1, "group", some 0⟩

lemma c3_reachable : Reachable c3mem [c3P, c3M, c3D] := by
  have h1 : Reachable c3mem ([] ++ [c3P]) := by
    refine Reachable.create [] c3P 0 Reachable.nil ?_ ?_ ?_ ?_
    · decide
    · rfl
    · intro p hp
      cases hp
    · rfl
  have h2 : Reachable c3mem ([c3P] ++ [c3M]) := by
    refine Reachable.create [c3P] c3M 1 h1 ?_ ?_ ?_ ?_
    · decide
    · rfl
    · intro p hp
      cases hp
      decide
    · rfl
  have h3 : Reachable c3mem ([c3P, c3M] ++ [c3D]) := by
    refine Reachable.create [c3P, c3M] c3D 1 h2 ?_ ?_ ?_ ?_
    · decide
    · rfl
    · intro p hp
      cases hp
      decide
    · rfl
  exact h3

/-- C3 (counterexample): the claimed any-depth invariant I4 is false on the
code.  Three validated creates produce `P(private, owner 0) <- M(private,
owner 1) <- D(group 0)` where user 0 is not a member of group 0: the private
folder `P` has a Group descendant at depth 2 whose group its owner does not
belong to, because rule 2 only consults the immediate parent's owner. -/
theorem C3_counterexample :
    Reachable c3mem [c3P, c3M, c3D] ∧
    c3P ∈ [c3P, c3M, c3D] ∧ c3D ∈ [c3P, c3M, c3D] ∧
    c3P.access_type = "private" ∧ c3P.created_by = some 0 ∧
    c3P.id ∈ ancestorIds [c3P, c3M, c3D] 10 c3D.id ∧
    c3D.access_type = "group" ∧ c3D.group = some 0 ∧
    c3mem 0 0 = false := by
  refine ⟨c3_reachable, by decide, by decide, rfl, rfl, by decide, rfl, rfl, by decide⟩

/-- C3 (amended): in every reachable tree state, every Private folder with a
Group *direct child* has an owner who is a member of that child's group; the
code enforces I4 only one edge at a time. -/
theorem C3_group_under_private_direct :
    ∀ (mem : GroupMem) (st : Store), Reachable mem st →
      ∀ p c, p ∈ st → c ∈ st → c.parent_folder = some p.id →
        p.access_type = "private" → c.access_type = "group" →
        ∃ u g, p.created_by = some u ∧ c.group = some g ∧ mem u g = true := by
  intro mem st h
  exact storeInv_edgeI4 (reachable_storeInv h)

/-- C3 witness data: a private root owned by user 1 (member of group 0). -/
def c3wP : Folder := ⟨0, "r", none, some 1, "private", none⟩

/-- C3 witness data: a group-0 child of `c3wP`. -/
def c3wC : Folder := ⟨1, "s", some 0, some 1, "group", some 0⟩

lemma c3w_reachable : Reachable c3mem [c3wP, c3wC] := by
  have h1 : Reachable c3mem ([] ++ [c3wP]) := by
    refine Reachable.create [] c3wP 1 Reachable.nil ?_ ?_ ?_ ?_
    · decide
    · rfl
    · intro p hp
      cases hp
    · rfl
  have h2 : Reachable c3mem ([c3wP] ++ [c3wC]) := by
    refine Reachable.create [c3wP] c3wC 1 h1 ?_ ?_ ?_ ?_
    · decide
    · rfl
    · intro p hp
      cases hp
      decide
    · rfl
  exact h2

/-- Witness for the amended C3 at a concrete reachable two-folder state. -/
theorem C3_group_under_private_direct_witness :
    ∃ u g, c3wP.created_by = some u ∧ c3wC.group = some g ∧ c3mem u g = true :=
  C3_group_under_private_direct c3mem [c3wP, c3wC] c3w_reachable
    c3wP c3wC (by decide) (by decide) (by decide) rfl rfl

/-- C4 data: empty group membership. -/
def c4mem : GroupMem := fun _ _ => false

/-- C4 data: public root `A`. -/
def c4A : Folder := ⟨0, "A", none, some 0, "public", none⟩

/-- C4 data: public folder `B` under `A`. -/
def c4B : Folder := ⟨1, "B", some 0, some 0, "public", none⟩

/-- C4 data: public folder `C` under `B`. -/
def c4C : Folder := ⟨2, "C", some 1, some 0, "public", none⟩

/-- C4 data: `A` after reclassification to private. -/
def c4A2 : Folder := ⟨0, "A", none, some 0, "private", none⟩

/-- C4 data: `B` after reclassification to private. -/
def c4B2 : Folder := ⟨1, "B", some 0, some 0, "private", none⟩

/-- C4 data: `C` after reclassification to private. -/
def c4C2 : Folder := ⟨2, "C", some 1, some 0, "private", none⟩

/-- C4: the bulk actions process the batch ordered by tree depth —
`make_public` ascending (parents first), `make_private` descending
(children first); both plans are permutations of the batch.  On the chain
`A(Public) <- B(Public) <- C(Public)`, making `[A, B, C]` private processes
`C` before `B` before `A`, and all three succeed. -/
theorem C4_bulk_reclassification_order :
    (∀ (st : Store) (batch : List Nat),
      (planPublic st batch).Perm batch ∧
      (planPublic st batch).Pairwise
        (fun a b => depthOfId st st.length a ≤ depthOfId st st.length b)) ∧
    (∀ (st : Store) (batch : List Nat),
      (planPrivate st batch).Perm batch ∧
      (planPrivate st batch).Pairwise
        (fun a b => depthOfId st st.length b ≤ depthOfId st st.length a)) ∧
    planPrivate [c4A, c4B, c4C] [0, 1, 2] = [2, 1, 0] ∧
    make_private c4mem [c4A, c4B, c4C] [0, 1, 2] =
      { store := [c4A2, c4B2, c4C2], count := 3, errors := [] } := by
  refine ⟨fun st batch => ⟨planPublic_perm st batch, planPublic_sorted st batch⟩,
    fun st batch => ⟨planPrivate_perm st batch, planPrivate_sorted st batch⟩,
    by rfl, by rfl⟩

/-- C5 data: empty group membership. -/
def c5mem : GroupMem := fun _ _ => false

/-- C5 data: a private root whose four private children all fail
reclassification to public. -/
def c5st : Store :=
  [⟨0, "P", none, some 0, "private", none⟩,
   ⟨1, "c1", some 0, some 0, "private", none⟩,
   ⟨2, "c2", some 0, some 0, "private", none⟩,
   ⟨3, "c3", some 0, some 0, "private", none⟩,
   ⟨4, "c4", some 0, some 0, "private", none⟩]

/-- C5 data: the second row of `c5st`. -/
def c5c1 : Folder := ⟨1, "c1", some 0, some 0, "private", none⟩

/-- C5: one folder's validation failure in a bulk action never raises and
never blocks the rest of the batch: a failing step only appends its
`(folder name, error)` record, a succeeding step persists and bumps the
count, the fold continues over the remaining batch unconditionally, and the
displayed error list is truncated to the first three entries with the count
of the remainder. -/
theorem C5_batch_partial_failure :
    (∀ (mem : GroupMem) (target : String) (r : BatchResult) (i : Nat)
        (fOld : Folder) (e : VErr),
      getFolder r.store i = some fOld → fOld.access_type ≠ target →
      full_clean mem r.store false (setMode fOld target) = .error e →
      reclassStep mem target r i =
        { r with errors := r.errors ++ [(fOld.name, e)] }) ∧
    (∀ (mem : GroupMem) (target : String) (r : BatchResult) (i : Nat)
        (fOld : Folder),
      getFolder r.store i = some fOld → fOld.access_type ≠ target →
      full_clean mem r.store false (setMode fOld target) = .ok () →
      reclassStep mem target r i =
        { store := updateStore r.store (setMode fOld target),
          count := r.count + 1, errors := r.errors }) ∧
    (∀ (mem : GroupMem) (target : String) (r : BatchResult) (l1 l2 : List Nat),
      (l1 ++ l2).foldl (reclassStep mem target) r =
        l2.foldl (reclassStep mem target) (l1.foldl (reclassStep mem target) r)) ∧
    (∀ errors : List (String × VErr), 3 < errors.length →
      errorReport errors = (errors.take 3, some (errors.length - 3))) := by
  refine ⟨reclassStep_error, reclassStep_ok, ?_, ?_⟩
  · intro mem target r l1 l2
    rw [List.foldl_append]
  · intro errors h
    unfold errorReport
    rw [if_pos h]

/-- Witness for C5: reclassifying the four private children of a private
root to public records all four failures, applies none, and the display is
truncated to three entries plus a remainder of one. -/
theorem C5_batch_partial_failure_witness :
    reclassStep c5mem "public" ⟨c5st, 0, []⟩ 1 =
      ⟨c5st, 0, [("c1", VErr.publicUnderPrivate)]⟩ ∧
    (make_public c5mem c5st [1, 2, 3, 4]).errors =
      [("c1", VErr.publicUnderPrivate), ("c2", VErr.publicUnderPrivate),
       ("c3", VErr.publicUnderPrivate), ("c4", VErr.publicUnderPrivate)] ∧
    (make_public c5mem c5st [1, 2, 3, 4]).count = 0 ∧
    errorReport (make_public c5mem c5st [1, 2, 3, 4]).errors =
      ([("c1", VErr.publicUnderPrivate), ("c2", VErr.publicUnderPrivate),
        ("c3", VErr.publicUnderPrivate)], some 1) := by
  refine ⟨?_, by rfl, by rfl, ?_⟩
  · exact C5_batch_partial_failure.1 c5mem "public" ⟨c5st, 0, []⟩ 1 c5c1
      VErr.publicUnderPrivate (by rfl) (by decide) (by rfl)
  · have h := C5_batch_partial_failure.2.2.2
      (make_public c5mem c5st [1, 2, 3, 4]).errors (by decide)
    rw [h]
    rfl

/-- C6 data: user 0 belongs exactly to group 5. -/
def c6mem : GroupMem := fun u g => u = 0 && g = 5

/-- C6 data: a private folder owned by user 0. -/
def c6P : Folder := ⟨0, "p", none, some 0, "private", none⟩

/-- C6 data: an unrelated public folder. -/
def c6Q : Folder := ⟨1, "q", none, some 1, "public", none⟩

/-- C6 data: a group folder of group 5 (user 0's group). -/
def c6R : Folder := ⟨2, "r", none, some 1, "group", some 5⟩

/-- C6 data: a group folder of group 6, which user 0 does not belong to. -/
def c6S : Folder := ⟨3, "s", none, some 1, "group", some 6⟩

/-- C6 data: the four-folder table. -/
def c6st : Store := [c6P, c6Q, c6R, c6S]

/-- C6: `get_user_accessible_folders` returns exactly the union of the
user's own Private folders, all Public folders, and the Group folders of
groups the user belongs to; under unique primary keys no folder appears
twice. -/
theorem C6_accessible_folders :
    ∀ (mem : GroupMem) (st : Store) (u : Nat),
      (∀ f, f ∈ get_user_accessible_folders mem st u ↔
        f ∈ st ∧ ((f.access_type = "private" ∧ f.created_by = some u) ∨
          f.access_type = "public" ∨
          (f.access_type = "group" ∧ ∃ g, f.group = some g ∧ mem u g = true))) ∧
      (IdsNodup st → (get_user_accessible_folders mem st u).Nodup) := by
  intro mem st u
  exact ⟨mem_accessible_iff mem st u, fun hnd => accessible_nodup hnd⟩

/-- Witness for C6 on the spec's example: `{P, Q, R}` are returned, the
foreign-group folder `S` is excluded, and the result has no duplicates. -/
theorem C6_accessible_folders_witness :
    c6P ∈ get_user_accessible_folders c6mem c6st 0 ∧
    c6Q ∈ get_user_accessible_folders c6mem c6st 0 ∧
    c6R ∈ get_user_accessible_folders c6mem c6st 0 ∧
    c6S ∉ get_user_accessible_folders c6mem c6st 0 ∧
    (get_user_accessible_folders c6mem c6st 0).Nodup := by
  obtain ⟨hiff, hnodup⟩ := C6_accessible_folders c6mem c6st 0
  refine ⟨?_, ?_, ?_, ?_, hnodup (by unfold IdsNodup ids; decide)⟩
  · exact (hiff c6P).mpr ⟨by decide, Or.inl ⟨rfl, rfl⟩⟩
  · exact (hiff c6Q).mpr ⟨by decide, Or.inr (Or.inl rfl)⟩
  · exact (hiff c6R).mpr ⟨by decide, Or.inr (Or.inr ⟨rfl, 5, rfl, by decide⟩)⟩
  · intro hin
    rcases ((hiff c6S).mp hin).2 with ⟨hp, -⟩ | hp | ⟨-, g, hgs, hm⟩
    · exact absurd hp (by decide)
    · exact absurd hp (by decide)
    · cases hgs
      exact absurd hm (by decide)

/-- C7 data: empty group membership. -/
def c7mem : GroupMem := fun _ _ => false

/-- C7 data: a single private root owned by user 0. -/
def c7P : Folder := ⟨0, "root", none, some 0, "private", none⟩

lemma c7_reachable : Reachable c7mem [c7P] := by
  have h1 : Reachable c7mem ([] ++ [c7P]) := by
    refine Reachable.create [] c7P 0 Reachable.nil ?_ ?_ ?_ ?_
    · decide
    · rfl
    · intro p hp
      cases hp
    · rfl
  exact h1

/-- C7: in every tree state reachable through validated mutations,
revalidating any stored folder with its current state (`full_clean` as an
update, same name, parent, access type and group) succeeds — a no-op update
is always valid. -/
theorem C7_noop_update_valid :
    ∀ (mem : GroupMem) (st : Store), Reachable mem st →
      ∀ f ∈ st, full_clean mem st false f = .ok () := by
  intro mem st h f hf
  exact noop_full_clean_ok (reachable_storeInv h) hf

/-- Witness for C7 at a concrete reachable one-folder state. -/
theorem C7_noop_update_valid_witness :
    full_clean c7mem [c7P] false c7P = .ok () :=
  C7_noop_update_valid c7mem [c7P] c7_reachable c7P (by decide)

lemma cycleFound_create (st : Store) (f : Folder) :
    cycleFound st true f = false := by
  unfold cycleFound
  cases f.parent_folder with
  | none => rfl
  | some p => simp [cycleSearch_none]

/-- C8: validation enforces I2.  A proposed folder with `access_type` Group
and no group always fails — on a create with `InvalidAccessConfiguration`
(the "Group is required" error) — and a folder whose `access_type` is not
Group but whose group is set also always fails validation. -/
theorem C8_invalid_access_configuration :
    ∀ (mem : GroupMem) (st : Store) (f : Folder),
      (f.access_type = "group" → f.group = none →
        full_clean mem st true f = .error .groupRequired ∧
        ∀ b, full_clean mem st b f ≠ .ok ()) ∧
      ((f.access_type = "private" ∨ f.access_type = "public") →
        f.group ≠ none →
        full_clean mem st true f = .error .groupNotAllowed ∧
        ∀ b, full_clean mem st b f ≠ .ok ()) := by
  intro mem st f
  constructor
  · intro hg hn
    constructor
    · have hcf : clean_fields f = .ok () := by
        rw [clean_fields_ok_iff, hg]
        decide
      have hcl : clean mem st true f = .error .groupRequired := by
        unfold clean
        rw [if_neg (by rw [cycleFound_create]; exact Bool.false_ne_true)]
        rw [if_pos ⟨hg, hn⟩]
      unfold full_clean
      rw [hcf]
      simp only []
      rw [hcl]
    · intro b hok
      obtain ⟨-, -, hI2a, -, -, -, -⟩ := full_clean_ok_facts hok
      exact hI2a hg hn
  · intro hpp hn
    have hne : f.access_type ≠ "group" := by
      rcases hpp with h | h <;> rw [h] <;> decide
    constructor
    · have hcf : clean_fields f = .ok () := by
        rw [clean_fields_ok_iff]
        rcases hpp with h | h <;> rw [h] <;> decide
      have hcl : clean mem st true f = .error .groupNotAllowed := by
        unfold clean
        rw [if_neg (by rw [cycleFound_create]; exact Bool.false_ne_true)]
        rw [if_neg (fun hc => hne hc.1)]
        rw [if_pos ⟨hne, hn⟩]
      unfold full_clean
      rw [hcf]
      simp only []
      rw [hcl]
    · intro b hok
      obtain ⟨-, -, -, hI2b, -, -, -⟩ := full_clean_ok_facts hok
      exact hn (hI2b hne)

/-- C8 witness data: empty group membership. -/
def c8mem : GroupMem := fun _ _ => false

/-- C8 witness data: a proposed group folder with no group. -/
def c8f : Folder := ⟨0, "x", none, some 0, "group", none⟩

/-- C8 witness data: a proposed private folder with a group set. -/
def c8g : Folder := ⟨0, "x", none, some 0, "private", some 3⟩

/-- Witness for C8 on concrete misconfigured folders over the empty table. -/
theorem C8_invalid_access_configuration_witness :
    full_clean c8mem [] true c8f = .error .groupRequired ∧
    full_clean c8mem [] true c8g = .error .groupNotAllowed := by
  constructor
  · exact ((C8_invalid_access_configuration c8mem [] c8f).1 rfl rfl).1
  · exact ((C8_invalid_access_configuration c8mem [] c8g).2 (Or.inl rfl)
      (by decide)).1

/-- C9 data: empty group membership. -/
def c9mem : GroupMem := fun _ _ => false

/-- C9 data: an existing private root named `X`. -/
def c9row : Folder := ⟨0, "X", none, some 0, "private", none⟩

/-- C9 data: a second private root also named `X`: its NULL `parent_folder`
makes every unique constraint skip, so validation accepts it. -/
def c9dup : Folder := ⟨1, "X", none, some 0, "private", none⟩

lemma c9roots_reachable : Reachable c9mem [c9row, c9dup] := by
  have h1 : Reachable c9mem ([] ++ [c9row]) := by
    refine Reachable.create [] c9row 0 Reachable.nil ?_ ?_ ?_ ?_
    · decide
    · rfl
    · intro p hp
      cases hp
    · rfl
  have h2 : Reachable c9mem ([c9row] ++ [c9dup]) := by
    refine Reachable.create [c9row] c9dup 0 h1 ?_ ?_ ?_ ?_
    · decide
    · rfl
    · intro p hp
      cases hp
    · rfl
  exact h2

/-- C9 (counterexample): the claim as stated is false at root level.  Both
unique constraints list `parent_folder`, and Django's
`UniqueConstraint.validate` skips any constraint whose instance value is
NULL (as do the partial unique indexes, NULL being distinct in SQL), so
creating a second root named `X` with the identical
`(name, access_type, group)` triple passes `full_clean`, and a reachable
state contains two distinct root folders sharing the triple. -/
theorem C9_counterexample :
    full_clean c9mem [c9row] true c9dup = .ok () ∧
    Reachable c9mem [c9row, c9dup] ∧
    c9row ∈ [c9row, c9dup] ∧ c9dup ∈ [c9row, c9dup] ∧
    c9row.id ≠ c9dup.id ∧
    c9row.name = c9dup.name ∧
    c9row.parent_folder = c9dup.parent_folder ∧
    c9row.access_type = c9dup.access_type ∧
    (c9row.access_type = "group" → c9row.group = c9dup.group) := by
  refine ⟨by rfl, c9roots_reachable, by decide, by decide, by decide,
    rfl, rfl, rfl, fun h => absurd h (by decide)⟩

/-- C9 (amended): for a proposed folder whose parent is set, the
unique-constraint check fails with `DuplicateFolderError` whenever the
proposal clashes with a sibling under that parent on the
`(name, access_type, group)` triple (group compared only for Group
folders), and `full_clean` never succeeds on such a proposal; a proposal
with no parent is never checked, because the constraints skip NULL fields;
consequently, in every reachable tree state, no two non-root siblings
share the triple. -/
theorem C9_duplicate_nonroot_sibling_rejected :
    (∀ (mem : GroupMem) (st : Store) (b : Bool) (f : Folder),
      hasDuplicate b st f = true →
        validate_unique b st f = .error .duplicate ∧
        full_clean mem st b f ≠ .ok ()) ∧
    (∀ (b : Bool) (st : Store) (f : Folder),
      f.parent_folder = none → hasDuplicate b st f = false) ∧
    (∀ (mem : GroupMem) (st : Store), Reachable mem st →
      ∀ s t, s ∈ st → t ∈ st → s.id ≠ t.id → s.parent_folder ≠ none →
        ¬(s.name = t.name ∧ s.parent_folder = t.parent_folder ∧
          s.access_type = t.access_type ∧
          (s.access_type = "group" → s.group = t.group))) := by
  refine ⟨?_, ?_, ?_⟩
  · intro mem st b f hd
    constructor
    · unfold validate_unique
      rw [if_pos hd]
    · intro hok
      obtain ⟨-, -, -, -, -, -, hdup⟩ := full_clean_ok_facts hok
      rw [hd] at hdup
      cases hdup
  · intro b st f h
    unfold hasDuplicate
    rw [h]
  · intro mem st h
    exact storeInv_i6 (reachable_storeInv h)

/-- C9 witness data: a private root `P` that will hold the clashing
children. -/
def c9P : Folder := ⟨0, "P", none, some 0, "private", none⟩

/-- C9 witness data: an existing child of `P` named `X`. -/
def c9cX : Folder := ⟨1, "X", some 0, some 0, "private", none⟩

/-- C9 witness data: an existing child of `P` named `Y`. -/
def c9cY : Folder := ⟨2, "Y", some 0, some 0, "private", none⟩

/-- C9 witness data: a proposed second child of `P` also named `X`. -/
def c9dupX : Folder := ⟨3, "X", some 0, some 0, "private", none⟩

lemma c9children_reachable : Reachable c9mem [c9P, c9cX, c9cY] := by
  have h1 : Reachable c9mem ([] ++ [c9P]) := by
    refine Reachable.create [] c9P 0 Reachable.nil ?_ ?_ ?_ ?_
    · decide
    · rfl
    · intro p hp
      cases hp
    · rfl
  have h2 : Reachable c9mem ([c9P] ++ [c9cX]) := by
    refine Reachable.create [c9P] c9cX 0 h1 ?_ ?_ ?_ ?_
    · decide
    · rfl
    · intro p hp
      cases hp
      decide
    · rfl
  have h3 : Reachable c9mem ([c9P, c9cX] ++ [c9cY]) := by
    refine Reachable.create [c9P, c9cX] c9cY 0 h2 ?_ ?_ ?_ ?_
    · decide
    · rfl
    · intro p hp
      cases hp
      decide
    · rfl
  exact h3

/-- Witness for the amended C9: creating a duplicate child `X` under `P`
fails with the duplicate error, a rootless proposal is exempt, and the two
distinct children of a concrete reachable state do not share the triple. -/
theorem C9_duplicate_nonroot_sibling_rejected_witness :
    (validate_unique true [c9P, c9cX] c9dupX = .error .duplicate ∧
      full_clean c9mem [c9P, c9cX] true c9dupX ≠ .ok ()) ∧
    hasDuplicate true [c9row] c9dup = false ∧
    ¬(c9cX.name = c9cY.name ∧
      c9cX.parent_folder = c9cY.parent_folder ∧
      c9cX.access_type = c9cY.access_type ∧
      (c9cX.access_type = "group" → c9cX.group = c9cY.group)) := by
  refine ⟨?_, ?_, ?_⟩
  · exact C9_duplicate_nonroot_sibling_rejected.1 c9mem [c9P, c9cX] true
      c9dupX (by decide)
  · exact C9_duplicate_nonroot_sibling_rejected.2.1 true [c9row] c9dup rfl
  · exact C9_duplicate_nonroot_sibling_rejected.2.2 c9mem [c9P, c9cX, c9cY]
      c9children_reachable c9cX c9cY (by decide) (by decide) (by decide)
      (by decide)

/-- C10: a folder whose `access_type` is Group but whose group is unset, and
a folder whose `access_type` is Private but whose owner reference is null,
are accessible to no user: `user_can_access` is false and the folder never
appears in `get_user_accessible_folders`. -/
theorem C10_orphaned_folders_inaccessible :
    ∀ (mem : GroupMem) (st : Store) (u : Nat) (f : Folder),
      (f.access_type = "group" → f.group = none →
        user_can_access mem f u = false ∧
        f ∉ get_user_accessible_folders mem st u) ∧
      (f.access_type = "private" → f.created_by = none →
        user_can_access mem f u = false ∧
        f ∉ get_user_accessible_folders mem st u) := by
  intro mem st u f
  constructor
  · intro hg hn
    constructor
    · unfold user_can_access
      rw [if_neg (by rw [hg]; decide), if_neg (by rw [hg]; decide),
        if_pos hg, hn]
    · intro hin
      rcases ((mem_accessible_iff mem st u f).mp hin).2 with
        ⟨hp, -⟩ | hp | ⟨-, g, hgs, -⟩
      · exact absurd hp (by rw [hg]; decide)
      · exact absurd hp (by rw [hg]; decide)
      · rw [hn] at hgs
        cases hgs
  · intro hpriv hcb
    constructor
    · unfold user_can_access
      rw [if_pos hpriv, hcb]
      simp
    · intro hin
      rcases ((mem_accessible_iff mem st u f).mp hin).2 with
        ⟨-, hp⟩ | hp | ⟨hp, -⟩
      · rw [hcb] at hp
        cases hp
      · exact absurd hp (by rw [hpriv]; decide)
      · exact absurd hp (by rw [hpriv]; decide)

/-- C10 witness data: membership making user 0 a member of every group. -/
def c10mem : GroupMem := fun u _ => u = 0

/-- C10 witness data: a group-mode folder with no group set. -/
def c10f : Folder := ⟨0, "g", none, some 0, "group", none⟩

/-- C10 witness data: a private folder whose owner was deleted. -/
def c10g : Folder := ⟨1, "h", none, none, "private", none⟩

/-- Witness for C10 at concrete orphaned folders and user 0. -/
theorem C10_orphaned_folders_inaccessible_witness :
    (user_can_access c10mem c10f 0 = false ∧
      c10f ∉ get_user_accessible_folders c10mem [c10f, c10g] 0) ∧
    (user_can_access c10mem c10g 0 = false ∧
      c10g ∉ get_user_accessible_folders c10mem [c10f, c10g] 0) := by
  constructor
  · exact (C10_orphaned_folders_inaccessible c10mem [c10f, c10g] 0 c10f).1
      rfl rfl
  · exact (C10_orphaned_folders_inaccessible c10mem [c10f, c10g] 0 c10g).2
      rfl rfl
